import Mathlib

/-! danckelmann: display engine and resource manager

A shallow embedding of `display/engine.go` (`DisplayEngine.drawFrame`,
`DisplayEngine.Run`, `DisplayEngine.Stop`), of `display/viewport.go`
(`Viewport.OnScreen`) and of `resources/manager.go` (`CreateResourceManager`,
`GetTile`, `GetDefaultTile`, `GetTileOrDefault`), followed by the properties
established about them.

Conventions of the embedding.

* A Go `int` is an `Int` in the 64-bit range (`isInt`); sums, differences and
  products of pixel quantities wrap around (`wrap`), `/` on `int` is truncating
  division (`Int.tdiv`) and `float32(n)` rounds to 24 significant bits
  (`float32OfInt`).  Loop counters and slice indices, which the loops bound, are
  not wrapped.
* A run-time panic (slice index out of range, negative `make` length,
  `log.Panicf`) is an explicit value of type `Panic`.
* Calls into the allegro library are collaborators: a bitmap handle is an
  abstract `Sprite`, loading a bitmap is a function from the file name to the
  dimensions of the loaded bitmap, and sub-bitmap creation is a function
  telling whether the library hands back a view (non-nil) for a region.
* The viewport is written by another goroutine; every read under `drawLock`
  is the next value of a stream `vps` of snapshots.  In the same way the reads
  of `d.running` by the pacing loop are a stream `reads`.
* float64 values are values of an abstract type with the three operations
  `OnScreen` uses.
* Goroutines are embedded as a state machine: a state shared by the pacing
  loop, the render tasks and the event handler, atomic steps at the granularity
  of the statements that touch it, and schedules that interleave them.  A locked
  mutex blocks the step that locks it.
-/

set_option autoImplicit false

/-- Run-time panics of the Go program that the embedding tracks. -/
inductive Panic where
  | indexOutOfRange
  | makeSliceLen
  | defaultTileMissing
deriving DecidableEq, Repr

/-- Slice indexing `xs[i]` with a Go `int` index; `none` is the out-of-range panic. -/
def sliceGet {α : Type} (xs : List α) (i : Int) : Option α :=
  if i < 0 then none else xs[i.toNat]?

/-- Slice store `xs[i] = v` with a Go `int` index; `none` is the out-of-range panic. -/
def sliceSet {α : Type} (xs : List α) (i : Int) (v : α) : Option (List α) :=
  if i < 0 then none
  else if i.toNat < xs.length then some (xs.set i.toNat v) else none

/-- Two's-complement wrap-around of a result to the 64 bits of a Go `int`. -/
def wrap (n : Int) : Int :=
  (n + 9223372036854775808) % 18446744073709551616 - 9223372036854775808

/-- The value is in the range of a Go `int`: the operation whose exact result it
is does not overflow. -/
def isInt (n : Int) : Prop :=
  -9223372036854775808 ≤ n ∧ n < 9223372036854775808

instance (n : Int) : Decidable (isInt n) := by
  unfold isInt; infer_instance

/-- Rounds `a` to a multiple of `2 ^ e`, to nearest and ties to even. -/
def roundAt (e a : Nat) : Nat :=
  let q := a / 2 ^ e
  let r := a % 2 ^ e
  if 2 * r > 2 ^ e ∨ (2 * r = 2 ^ e ∧ q % 2 = 1) then (q + 1) * 2 ^ e else q * 2 ^ e

/-- Rounds `a` to 24 significant bits: the first exponent `e`, from the given one
on, that leaves a 24-bit significand is the one `a` is rounded at. -/
def roundBits : Nat → Nat → Nat → Nat
  | 0, _, a => a
  | fuel + 1, e, a => if a / 2 ^ e < 2 ^ 24 then roundAt e a else roundBits fuel (e + 1) a

/-- The conversion `float32(n)` of a Go `int`: the nearest float32, an integer,
ties to even. -/
def float32OfInt (n : Int) : Int :=
  if n < 0 then -((roundBits 64 0 n.natAbs : Nat) : Int)
  else ((roundBits 64 0 n.natAbs : Nat) : Int)

namespace display

/-- Handle of an allegro bitmap (`*allegro.Bitmap`). -/
abbrev Sprite := Nat

/-- Modelled from the spec: the declaration of `DisplayConfig` is not among the
sources; these are the fields `drawFrame` reads (grid width and height in cells,
tile pixel width and height), all Go `int`. -/
structure DisplayConfig where
  MapW : Int
  MapH : Int
  TileW : Int
  TileH : Int
deriving DecidableEq, Repr

/-- The integer fields of `Viewport` (`viewport.go`); the zoom factors are not
read by `drawFrame`. -/
structure Viewport where
  X : Int
  Y : Int
  W : Int
  H : Int
deriving DecidableEq, Repr

/-- One `bmp.Draw(float32(sx), float32(sy), 0)` call, tagged with the cell
`(x, y)` whose stack the bitmap was taken from; `sx` and `sy` are the two
float32 arguments, which are integers. -/
structure DrawCall where
  x : Int
  y : Int
  bmp : Sprite
  sx : Int
  sy : Int
deriving DecidableEq, Repr

/-- What one execution of `drawFrame` did: the draw calls of every pass that was
started, in order, and the panic that ended it, if any. -/
structure Frame where
  passes : List (List DrawCall)
  panic : Option Panic
deriving DecidableEq, Repr

/-- Iterations `(x, y)` of the fetch loops
`for x := 0; x < MapW; x++ { for y := 0; y < MapH; y++ {`. -/
def fetchIters (cfg : DisplayConfig) : List (Int × Int) :=
  (List.range cfg.MapW.toNat).flatMap fun (x : Nat) =>
    (List.range cfg.MapH.toNat).map fun (y : Nat) => ((x : Int), (y : Int))

/-- The fetch loops of `drawFrame` (engine.go 167-175), run over the remaining
iterations with the current `toDraw` and `drawPasses`. -/
def fetchTiles (cfg : DisplayConfig) (getTile : Int → Int → List Sprite) :
    List (Int × Int) → List (List Sprite) → Nat → Except Panic (List (List Sprite) × Nat)
  | [], toDraw, drawPasses => .ok (toDraw, drawPasses)
  | (x, y) :: rest, toDraw, drawPasses =>
    match sliceSet toDraw (x * cfg.MapW + y) (getTile x y) with
    | none => .error .indexOutOfRange
    | some toDraw =>
      match sliceGet toDraw (x * cfg.MapW + y) with
      | none => .error .indexOutOfRange
      | some stack =>
        let length := stack.length
        fetchTiles cfg getTile rest toDraw (if length > drawPasses then length else drawPasses)

/-- Iterations `(s, x)` of the sweep loops
`for s := 0; s < m+n; s++ { for x := 0; x < s; x++ {`. -/
def sweepIters (cfg : DisplayConfig) : List (Int × Int) :=
  (List.range (cfg.MapW + cfg.MapH).toNat).flatMap fun (s : Nat) =>
    (List.range s).map fun (x : Nat) => ((s : Int), (x : Int))

/-- The bounds check of the sweep, `x >= m || y < 0 || y >= m` with
`m := d.config.MapW` (engine.go 191): `true` when the iteration is skipped. -/
def outOfBounds (cfg : DisplayConfig) (x y : Int) : Bool :=
  let m := cfg.MapW
  decide (x ≥ m) || decide (y < 0) || decide (y ≥ m)

/-- Body of the sweep loops for iteration `(s, x)` of pass `p` (engine.go 189-207):
`ok none` is a `continue`, `ok (some c)` the draw call issued. -/
def drawCell (cfg : DisplayConfig) (toDraw : List (List Sprite)) (viewport : Viewport)
    (p : Nat) (it : Int × Int) : Except Panic (Option DrawCall) :=
  let x := it.2
  let y := it.1 - x
  if outOfBounds cfg x y then .ok none
  else
    match sliceGet toDraw (x * cfg.MapW + y) with
    | none => .error .indexOutOfRange
    | some stack =>
      if (stack.length : Int) < (p : Int) then .ok none
      else
        let px := (wrap ((y - x) * cfg.TileW)).tdiv 2
        let py := (wrap ((x + y) * cfg.TileH)).tdiv 2
        match stack[p]? with
        | none => .error .indexOutOfRange
        | some bmp =>
          let sx := wrap (px - viewport.X)
          let sy := wrap (py - viewport.Y)
          .ok (some ⟨x, y, bmp, float32OfInt sx, float32OfInt sy⟩)

/-- Runs a loop body over the remaining iterations, collecting the draw calls
until the iterations are exhausted or the body panics. -/
def runCells (body : Int × Int → Except Panic (Option DrawCall)) :
    List (Int × Int) → List DrawCall × Option Panic
  | [] => ([], none)
  | it :: rest =>
    match body it with
    | .error e => ([], some e)
    | .ok r => (r.toList ++ (runCells body rest).1, (runCells body rest).2)

/-- The pass loop `for p := 0; p < drawPasses; p++` (engine.go 184-213) over the
remaining passes: pass `p` draws with the snapshot `vps p`, and the viewport is
read again when the pass is over. -/
def runPasses (cfg : DisplayConfig) (toDraw : List (List Sprite)) (vps : Nat → Viewport) :
    List Nat → List (List DrawCall) × Option Panic
  | [] => ([], none)
  | p :: rest =>
    match runCells (drawCell cfg toDraw (vps p) p) (sweepIters cfg) with
    | (calls, some e) => ([calls], some e)
    | (calls, none) =>
      (calls :: (runPasses cfg toDraw vps rest).1, (runPasses cfg toDraw vps rest).2)

/-- `DisplayEngine.drawFrame` (engine.go 164-218).  `getTile` is the game engine's
`GetTile`, `vps 0` the viewport snapshot taken before the first pass and
`vps (p + 1)` the one taken after pass `p`. -/
def drawFrame (cfg : DisplayConfig) (getTile : Int → Int → List Sprite)
    (vps : Nat → Viewport) : Frame :=
  if cfg.MapW * cfg.MapH < 0 then ⟨[], some .makeSliceLen⟩
  else
    match fetchTiles cfg getTile (fetchIters cfg)
        (List.replicate (cfg.MapW * cfg.MapH).toNat []) 0 with
    | .error e => ⟨[], some e⟩
    | .ok (toDraw, drawPasses) =>
      ⟨(runPasses cfg toDraw vps (List.range drawPasses)).1,
        (runPasses cfg toDraw vps (List.range drawPasses)).2⟩

/-- The cells `(x, y)` that pass the bounds check of the sweep during one pass,
in the order the loops reach them. -/
def sweep (cfg : DisplayConfig) : List (Int × Int) :=
  (sweepIters cfg).filterMap fun it =>
    if outOfBounds cfg it.2 (it.1 - it.2) then none else some (it.2, it.1 - it.2)

/-- The cells of the grid, `0 <= x < MapW` and `0 <= y < MapH`. -/
def inGrid (cfg : DisplayConfig) (x y : Int) : Prop :=
  0 ≤ x ∧ x < cfg.MapW ∧ 0 ≤ y ∧ y < cfg.MapH

instance (cfg : DisplayConfig) (x y : Int) : Decidable (inGrid cfg x y) := by
  unfold inGrid; infer_instance

/-- Order of the sweep iterations `(s, x)`: by diagonal, then by `x`. -/
def iterLt (a b : Int × Int) : Prop :=
  a.1 < b.1 ∨ (a.1 = b.1 ∧ a.2 < b.2)

/-- Order of the visited cells `(x, y)`: by diagonal `x + y`, then by `x`. -/
def cellLt (a b : Int × Int) : Prop :=
  a.1 + a.2 < b.1 + b.2 ∨ (a.1 + a.2 = b.1 + b.2 ∧ a.1 < b.1)

/-- The float64 operations `OnScreen` uses, over a type `F` standing for
float64: the conversion `float64(n)`, the product and the conversion `int(f)`. -/
structure Float64Ops (F : Type) where
  ofInt : Int → F
  mul : F → F → F
  toInt : F → Int

/-- `Viewport` (viewport.go 15-18) with its zoom factors, values of a type `F`
standing for float64. -/
structure ZoomedViewport (F : Type) extends Viewport where
  XZoom : F
  YZoom : F

/-- `Viewport.OnScreen` (viewport.go 25-35).  The source reads the fields as
`v.x`, `v.y`, `v.w`, `v.h`, `v.xZoom` and `v.yZoom`, names the struct does not
declare, so that the file does not compile as it stands; they are taken to be
the declared fields `X`, `Y`, `W`, `H`, `XZoom` and `YZoom`. -/
def OnScreen {F : Type} (ops : Float64Ops F) (v : ZoomedViewport F) (x y w h : Int) : Bool :=
  !(decide (wrap (x + w) < v.X) ||
    decide (x > wrap (v.X + ops.toInt (ops.mul (ops.ofInt v.W) v.XZoom))) ||
    decide (wrap (y + h) < v.Y) ||
    decide (y > wrap (v.Y + ops.toInt (ops.mul (ops.ofInt v.H) v.YZoom))))

/-- Width of the zoomed viewport rectangle, `int(float64(v.W) * v.XZoom)`. -/
def zoomedW {F : Type} (ops : Float64Ops F) (v : ZoomedViewport F) : Int :=
  ops.toInt (ops.mul (ops.ofInt v.W) v.XZoom)

/-- Height of the zoomed viewport rectangle, `int(float64(v.H) * v.YZoom)`. -/
def zoomedH {F : Type} (ops : Float64Ops F) (v : ZoomedViewport F) : Int :=
  ops.toInt (ops.mul (ops.ofInt v.H) v.YZoom)

/-- The rectangle `(x, y, w, h)` and the zoomed viewport rectangle have a point
`(a, b)` in common. -/
def sharesPoint {F : Type} (ops : Float64Ops F) (v : ZoomedViewport F) (x y w h : Int) : Prop :=
  ∃ a b : ℚ, (x : ℚ) ≤ a ∧ a ≤ x + w ∧ (y : ℚ) ≤ b ∧ b ≤ y + h ∧
    (v.X : ℚ) ≤ a ∧ a ≤ v.X + zoomedW ops v ∧ (v.Y : ℚ) ≤ b ∧ b ≤ v.Y + zoomedH ops v

/-- What the pacing loop of `Run` does that other goroutines can see. -/
inductive RunEvent where
  | dispatch (frame : Nat)
  | observe (running : Bool)
deriving DecidableEq, Repr

/-- The pacing loop of `Run` (engine.go 150-160), for at most `fuel` iterations,
entered with `frames` frames dispatched and the local flag `running`.  Each
iteration takes the gate and launches a render task (`dispatch`), then reads the
shared flag (`observe`); `reads k` is the value of `d.running` that the read
after the launch of frame `k` returns.  The result is the events in order and
whether the loop has exited. -/
def pacingLoop (reads : Nat → Bool) : Nat → Nat → Bool → List RunEvent × Bool
  | 0, _, running => ([], !running)
  | fuel + 1, frames, running =>
    if running then
      (.dispatch frames :: .observe (reads frames) ::
          (pacingLoop reads fuel (frames + 1) (reads frames)).1,
        (pacingLoop reads fuel (frames + 1) (reads frames)).2)
    else ([], true)

/-- `DisplayEngine.Run` (engine.go 140-162): the loop starts with `frames := 0`
and `running := true`. -/
def Run (reads : Nat → Bool) (fuel : Nat) : List RunEvent × Bool :=
  pacingLoop reads fuel 0 true

/-- Where the goroutine of `Run` stands in its loop: before
`d.frameDrawing.Lock()`, before `go d.drawFrame()`, before the read of
`d.running`, or past the loop. -/
inductive PacerPc where
  | atLock
  | atLaunch
  | atCheck
  | exited
deriving DecidableEq, Repr

/-- The state shared by the goroutines of a running engine: the flag
`d.running`, whether the mutex `d.frameDrawing` is locked, the position of the
pacing loop, the number of render tasks launched that have not returned yet, and
the number of frames dispatched. -/
structure EngineState where
  running : Bool
  frameDrawing : Bool
  pacer : PacerPc
  rendering : Nat
  frames : Nat
deriving DecidableEq, Repr

/-- The atomic steps the goroutines can take: one statement of the pacing loop,
the return of a render task, a `Stop()` call or display-close event, and any
other event handled by `eventHandler`. -/
inductive Action where
  | pacer
  | renderDone
  | stop
  | event
deriving DecidableEq, Repr

/-- One atomic step.  The pacing loop (engine.go 150-160) blocks on a locked
gate, launches a render task once it holds the gate, and leaves the loop when it
reads `d.running` as false; a render task unlocks the gate as its last statement
(engine.go 217); `Stop` and the display-close event clear `d.running`
(engine.go 126, 230); the other events change the viewport only. -/
def step (a : Action) (s : EngineState) : EngineState :=
  match a with
  | .pacer =>
    match s.pacer with
    | .atLock => if s.frameDrawing then s else { s with frameDrawing := true, pacer := .atLaunch }
    | .atLaunch =>
      { s with rendering := s.rendering + 1, frames := s.frames + 1, pacer := .atCheck }
    | .atCheck => { s with pacer := if s.running then .atLock else .exited }
    | .exited => s
  | .renderDone =>
    if s.rendering = 0 then s
    else { s with rendering := s.rendering - 1, frameDrawing := false }
  | .stop => { s with running := false }
  | .event => s

/-- The engine when `Run` enters its loop: `d.running` set, the gate unlocked,
no render task launched. -/
def engineStart : EngineState :=
  { running := true, frameDrawing := false, pacer := .atLock, rendering := 0, frames := 0 }

/-- The state after the steps of an interleaving, in order. -/
def runSchedule (sched : List Action) (s : EngineState) : EngineState :=
  sched.foldl (fun s a => step a s) s

end display

namespace resources

/-- The reserved name of the default tile (manager.go 10). -/
def DEFAULT_TILE_NAME : String := "____DEFAULT____"

/-- Width of the default tile's bitmap (manager.go 11). -/
def DEFAULT_TILE_WIDTH : Int := 128

/-- Height of the default tile's bitmap (manager.go 12). -/
def DEFAULT_TILE_HEIGHT : Int := 128

/-- Modelled from the spec: the declaration of `TileConfig` is not among the
sources; these are the fields `CreateResourceManager` reads from a tile spec
(name, source image, crop rectangle, draw offset), the numbers Go `int`. -/
structure TileConfig where
  Name : String
  Filename : String
  X : Int
  Y : Int
  W : Int
  H : Int
  OffX : Int
  OffY : Int
deriving DecidableEq, Repr

/-- Information about a tile in the atlas (manager.go 23-28). -/
structure tileMetadata where
  index : Nat
  x : Int
  y : Int
  w : Int
  h : Int
  offx : Int
  offy : Int
  name : String
deriving DecidableEq, Repr

/-- A sub-bitmap of the atlas: the region of the atlas it is a view of. -/
structure SubBitmap where
  x : Int
  y : Int
  w : Int
  h : Int
deriving DecidableEq, Repr

/-- The bitmap type handed to callers (manager.go 16-20). -/
structure Bitmap where
  Raw : SubBitmap
  OffX : Int
  OffY : Int
deriving DecidableEq, Repr

/-- The tile part of `ResourceManager` (manager.go 30-37).  The atlas bitmap is
represented by its dimensions; a Go map is an association list whose most recent
binding of a key comes first. -/
structure ResourceManager where
  atlasW : Int
  atlasH : Int
  tileMetadatas : List tileMetadata
  tilePositions : List (String × Nat)
  tileSubs : List (String × Option SubBitmap)
deriving DecidableEq, Repr

/-- Dimensions of the bitmap loaded for a tile spec (manager.go 55-60, 70):
a fresh default-sized bitmap for the reserved name, the loaded file otherwise. -/
def bitmapDimensions (load : String → Int × Int) (cfg : TileConfig) : Int × Int :=
  if cfg.Name = DEFAULT_TILE_NAME then (DEFAULT_TILE_WIDTH, DEFAULT_TILE_HEIGHT)
  else load cfg.Filename

/-- Loading and sanitising the metadata of tile `i` (manager.go 63-100, 107)
against a source bitmap of size `bmpw` x `bmph`. -/
def sanitize (i : Nat) (cfg : TileConfig) (bmpw bmph : Int) : tileMetadata :=
  let x := cfg.X
  let y := cfg.Y
  let ox := cfg.OffX
  let oy := cfg.OffY
  let (x, w) :=
    if bmpw < x then ((0 : Int), bmpw)
    else if bmpw < wrap (x + cfg.W) then (x, wrap (bmpw - x))
    else (x, cfg.W)
  let (y, h) :=
    if bmph < y then ((0 : Int), bmph)
    else if bmph < wrap (y + cfg.H) then (y, wrap (bmph - y))
    else (y, cfg.H)
  let w := if w = 0 then wrap (bmpw - x) else w
  let h := if h = 0 then wrap (bmph - y) else h
  let ox := if ox > w then 0 else ox
  let oy := if oy > h then 0 else oy
  ⟨i, x, y, w, h, ox, oy, cfg.Name⟩

/-- The first loop of `CreateResourceManager` (manager.go 51-108) from index `i`
on: the metadata of the remaining specs and the final `maxHeight`, `totalWidth`. -/
def loadTiles (load : String → Int × Int) :
    Nat → Int → Int → List TileConfig → List tileMetadata × Int × Int
  | _, maxHeight, totalWidth, [] => ([], maxHeight, totalWidth)
  | i, maxHeight, totalWidth, cfg :: rest =>
    let md := sanitize i cfg (bitmapDimensions load cfg).1 (bitmapDimensions load cfg).2
    let r := loadTiles load (i + 1) (if md.h > maxHeight then md.h else maxHeight)
      (wrap (totalWidth + md.w)) rest
    (md :: r.1, r.2)

/-- The second loop of `CreateResourceManager` (manager.go 115-128): each tile is
placed at `currentPos` in the atlas and its metadata updated to that position. -/
def placeTiles : Int → List tileMetadata → List tileMetadata
  | _, [] => []
  | currentPos, metadata :: rest =>
    { metadata with x := currentPos, y := 0 } ::
      placeTiles (wrap (currentPos + metadata.w)) rest

/-- `CreateSubBitmap` of the atlas: `subOk` tells whether allegro returns a view
(non-nil) for the region. -/
def createSubBitmap (subOk : Int → Int → Int → Int → Bool) (x y w h : Int) :
    Option SubBitmap :=
  if subOk x y w h then some ⟨x, y, w, h⟩ else none

/-- The third loop of `CreateResourceManager` (manager.go 138-142), which fills
the position map and the sub-bitmap cache. -/
def populate (subOk : Int → Int → Int → Int → Bool) :
    List tileMetadata → List (String × Nat) × List (String × Option SubBitmap) →
    List (String × Nat) × List (String × Option SubBitmap)
  | [], maps => maps
  | v :: rest, maps =>
    populate subOk rest
      ((v.name, v.index) :: maps.1, (v.name, createSubBitmap subOk v.x v.y v.w v.h) :: maps.2)

/-- The default tile spec appended to the caller's list (manager.go 40). -/
def defaultTileConfig : TileConfig :=
  { Name := DEFAULT_TILE_NAME, Filename := DEFAULT_TILE_NAME,
    X := 0, Y := 0, W := 0, H := 0, OffX := 0, OffY := 0 }

/-- `CreateResourceManager` (manager.go 39-157), tile part.  `TileConfigs` is the
caller-supplied list of tile specs. -/
def CreateResourceManager (load : String → Int × Int)
    (subOk : Int → Int → Int → Int → Bool) (TileConfigs : List TileConfig) :
    ResourceManager :=
  let tileConfs := TileConfigs ++ [defaultTileConfig]
  let loaded := loadTiles load 0 0 0 tileConfs
  let maxHeight := loaded.2.1
  let totalWidth := loaded.2.2
  let tileMetadatas := placeTiles 0 loaded.1
  let maps := populate subOk tileMetadatas ([], [])
  { atlasW := totalWidth, atlasH := maxHeight, tileMetadatas := tileMetadatas,
    tilePositions := maps.1, tileSubs := maps.2 }

/-- `ResourceManager.GetTile` (manager.go 159-176): `ok none` is `(nil, false)`,
`ok (some bmp)` is `(bmp, true)`. -/
def GetTile (subOk : Int → Int → Int → Int → Bool) (rm : ResourceManager)
    (name : String) : Except Panic (Option Bitmap) :=
  match rm.tilePositions.lookup name with
  | none => .ok none
  | some pos =>
    match rm.tileMetadatas[pos]? with
    | none => .error .indexOutOfRange
    | some metadata =>
      let sub :=
        match rm.tileSubs.lookup name with
        | some sub => sub
        | none => createSubBitmap subOk metadata.x metadata.y metadata.w metadata.h
      match sub with
      | none => .ok none
      | some sub => .ok (some ⟨sub, metadata.offx, metadata.offy⟩)

/-- `ResourceManager.GetDefaultTile` (manager.go 179-185). -/
def GetDefaultTile (subOk : Int → Int → Int → Int → Bool) (rm : ResourceManager) :
    Except Panic Bitmap :=
  match GetTile subOk rm DEFAULT_TILE_NAME with
  | .error e => .error e
  | .ok none => .error .defaultTileMissing
  | .ok (some sub) => .ok sub

/-- `ResourceManager.GetTileOrDefault` (manager.go 187-194). -/
def GetTileOrDefault (subOk : Int → Int → Int → Int → Bool) (rm : ResourceManager)
    (name : String) : Except Panic Bitmap :=
  match GetTile subOk rm name with
  | .error e => .error e
  | .ok none => GetDefaultTile subOk rm
  | .ok (some tile) => .ok tile

/-- Two rectangles of the atlas share a region of positive area. -/
def overlaps (a b : tileMetadata) : Prop :=
  max a.x b.x < min (a.x + a.w) (b.x + b.w) ∧ max a.y b.y < min (a.y + a.h) (b.y + b.h)

/-- The sanitisation rule of the specification for one axis, from the requested
`origin` and `size` and the source `extent`: the sanitised origin and size.  An
origin beyond the extent is reset to 0 with the full extent as size; otherwise a
size reaching beyond the extent becomes the remaining extent; a requested size
of zero becomes the remaining extent from the (possibly reset) origin. -/
def specCropAxis (origin size extent : Int) : Int × Int :=
  let o := if extent < origin then 0 else origin
  let sz :=
    if extent < origin then extent
    else if extent < origin + size then extent - origin
    else size
  if size = 0 then (o, extent - o) else (o, sz)

/-- The sanitised crop rectangle and draw offset of `md` are in range for a
source bitmap of size `bmpw` x `bmph`. -/
def inRange (md : tileMetadata) (bmpw bmph : Int) : Prop :=
  0 ≤ md.x ∧ 0 ≤ md.w ∧ md.x + md.w ≤ bmpw ∧ 0 ≤ md.y ∧ 0 ≤ md.h ∧ md.y + md.h ≤ bmph ∧
    0 ≤ md.offx ∧ md.offx ≤ md.w ∧ 0 ≤ md.offy ∧ md.offy ≤ md.h

instance (md : tileMetadata) (bmpw bmph : Int) : Decidable (inRange md bmpw bmph) := by
  unfold inRange; infer_instance

/-- A tile spec whose crop rectangle has no negative field. -/
def validCrop (c : TileConfig) : Prop :=
  0 ≤ c.X ∧ 0 ≤ c.Y ∧ 0 ≤ c.W ∧ 0 ≤ c.H

instance (c : TileConfig) : Decidable (validCrop c) := by
  unfold validCrop; infer_instance

/-- The metadata rectangle lies within an atlas of size `atlasW` x `atlasH`. -/
def withinAtlas (md : tileMetadata) (atlasW atlasH : Int) : Prop :=
  0 ≤ md.x ∧ md.x + md.w ≤ atlasW ∧ 0 ≤ md.y ∧ md.y + md.h ≤ atlasH

instance (md : tileMetadata) (atlasW atlasH : Int) : Decidable (withinAtlas md atlasW atlasH) := by
  unfold withinAtlas; infer_instance

/-- Sanitised width of a tile spec, against the bitmap loaded for it. -/
def sanitizedW (load : String → Int × Int) (c : TileConfig) : Int :=
  (sanitize 0 c (bitmapDimensions load c).1 (bitmapDimensions load c).2).w

/-- Sanitised height of a tile spec, against the bitmap loaded for it. -/
def sanitizedH (load : String → Int × Int) (c : TileConfig) : Int :=
  (sanitize 0 c (bitmapDimensions load c).1 (bitmapDimensions load c).2).h

end resources

/-! ## Arithmetic of `int` and `float32` -/

theorem wrap_of_isInt (n : Int) (h : isInt n) : wrap n = n := by
  unfold isInt at h
  unfold wrap
  omega

theorem wrap_wrap_add (a b : Int) : wrap (wrap a + b) = wrap (a + b) := by
  unfold wrap
  omega

theorem wrap_zero : wrap 0 = 0 := by
  decide

theorem float32OfInt_small (n : Int) (h : n.natAbs < 2 ^ 24) : float32OfInt n = n := by
  unfold float32OfInt
  have hr : roundBits 64 0 n.natAbs = n.natAbs := by
    simp only [roundBits, pow_zero, Nat.div_one]
    rw [if_pos h]
    simp [roundAt, Nat.mod_one]
  rw [hr]
  split_ifs <;> omega

/-! ## The sweep of `drawFrame` -/

namespace display

theorem mem_sweepIters (cfg : DisplayConfig) (s x : Int) :
    (s, x) ∈ sweepIters cfg ↔ 0 ≤ x ∧ x < s ∧ s < cfg.MapW + cfg.MapH := by
  unfold sweepIters
  simp only [List.mem_flatMap, List.mem_range, List.mem_map, Prod.mk.injEq]
  constructor
  · rintro ⟨a, ha, b, hb, rfl, rfl⟩
    omega
  · rintro ⟨h0, h1, h2⟩
    exact ⟨s.toNat, by omega, x.toNat, by omega, by omega, by omega⟩

theorem sweepIters_pairwise (cfg : DisplayConfig) :
    (sweepIters cfg).Pairwise iterLt := by
  unfold sweepIters
  rw [List.pairwise_flatMap]
  constructor
  · intro s _
    rw [List.pairwise_map]
    refine (List.pairwise_lt_range s).imp ?_
    intro a b hab
    right
    exact ⟨rfl, by simpa using hab⟩
  · refine (List.pairwise_lt_range _).imp ?_
    intro a b hab x hx y hy
    simp only [List.mem_map] at hx hy
    obtain ⟨_, _, rfl⟩ := hx
    obtain ⟨_, _, rfl⟩ := hy
    left
    simpa using hab

/-- The cells that pass the bounds check: `y` is never `0` and is compared with
the grid width. -/
theorem mem_sweep (cfg : DisplayConfig) (x y : Int) :
    (x, y) ∈ sweep cfg ↔
      0 ≤ x ∧ x < cfg.MapW ∧ 1 ≤ y ∧ y < cfg.MapW ∧ x + y < cfg.MapW + cfg.MapH := by
  unfold sweep
  simp only [List.mem_filterMap, Prod.exists, mem_sweepIters, outOfBounds]
  constructor
  · rintro ⟨s, x', ⟨h0, h1, h2⟩, h⟩
    split at h
    · simp at h
    · rename_i hb
      simp only [Option.some.injEq, Prod.mk.injEq] at h
      obtain ⟨rfl, rfl⟩ := h
      simp only [ge_iff_le, Bool.or_eq_true, decide_eq_true_eq, not_or, not_le, not_lt] at hb
      omega
  · rintro ⟨h0, h1, h2, h3, h4⟩
    refine ⟨x + y, x, ⟨h0, by omega, h4⟩, ?_⟩
    rw [if_neg]
    · simp
    · simp only [ge_iff_le, Bool.or_eq_true, decide_eq_true_eq, not_or, not_le, not_lt]
      omega

theorem sweep_pairwise (cfg : DisplayConfig) : (sweep cfg).Pairwise cellLt := by
  unfold sweep
  refine List.Pairwise.filterMap _ ?_ (sweepIters_pairwise cfg)
  intro a a' h b hb b' hb'
  simp only [Option.mem_def] at hb hb'
  split at hb
  · simp at hb
  · split at hb'
    · simp at hb'
    · simp only [Option.some.injEq] at hb hb'
      subst hb hb'
      unfold iterLt at h
      unfold cellLt
      simp only
      omega

theorem drawCell_some (cfg : DisplayConfig) (toDraw : List (List Sprite)) (vp : Viewport)
    (p : Nat) (it : Int × Int) (c : DrawCall)
    (h : drawCell cfg toDraw vp p it = .ok (some c)) :
    outOfBounds cfg it.2 (it.1 - it.2) = false ∧ c.x = it.2 ∧ c.y = it.1 - it.2 := by
  unfold drawCell at h
  simp only at h
  split at h
  · simp at h
  · rename_i hb
    split at h
    · simp at h
    · split at h
      · simp at h
      · split at h
        · simp at h
        · simp only [Except.ok.injEq, Option.some.injEq] at h
          subst h
          simp at hb
          simp [hb]

theorem runCells_sublist (cfg : DisplayConfig) (toDraw : List (List Sprite)) (vp : Viewport)
    (p : Nat) (its : List (Int × Int)) :
    ((runCells (drawCell cfg toDraw vp p) its).1.map fun c => (c.x, c.y)).Sublist
      (its.filterMap fun it =>
        if outOfBounds cfg it.2 (it.1 - it.2) then none else some (it.2, it.1 - it.2)) := by
  induction its with
  | nil => simp [runCells]
  | cons it rest ih =>
    unfold runCells
    cases hb : drawCell cfg toDraw vp p it with
    | error e => simp
    | ok r =>
      cases r with
      | none =>
        simp only [Option.toList, List.nil_append]
        by_cases hob : outOfBounds cfg it.2 (it.1 - it.2) = true
        · rw [List.filterMap_cons_none (by simp [hob])]
          exact ih
        · rw [List.filterMap_cons_some (b := (it.2, it.1 - it.2)) (by simp [hob])]
          exact ih.cons _
      | some c =>
        obtain ⟨h1, h2, h3⟩ := drawCell_some cfg toDraw vp p it c hb
        simp only [Option.toList, List.singleton_append, List.map_cons]
        rw [List.filterMap_cons_some (b := (it.2, it.1 - it.2)) (by simp [h1])]
        rw [h2, h3]
        exact ih.cons₂ _

theorem runPasses_mem (cfg : DisplayConfig) (toDraw : List (List Sprite))
    (vps : Nat → Viewport) (ps : List Nat) (pass : List DrawCall)
    (h : pass ∈ (runPasses cfg toDraw vps ps).1) :
    ∃ p ∈ ps, pass = (runCells (drawCell cfg toDraw (vps p) p) (sweepIters cfg)).1 := by
  induction ps with
  | nil => simp [runPasses] at h
  | cons p rest ih =>
    unfold runPasses at h
    split at h
    · rename_i calls e heq
      simp only [List.mem_singleton] at h
      exact ⟨p, by simp, by rw [h, heq]⟩
    · rename_i calls heq
      simp only [List.mem_cons] at h
      rcases h with h | h
      · exact ⟨p, by simp, by rw [h, heq]⟩
      · obtain ⟨q, hq, hq'⟩ := ih h
        exact ⟨q, by simp [hq], hq'⟩

theorem drawFrame_passes (cfg : DisplayConfig) (getTile : Int → Int → List Sprite)
    (vps : Nat → Viewport) (pass : List DrawCall)
    (h : pass ∈ (drawFrame cfg getTile vps).passes) :
    ∃ toDraw p, pass = (runCells (drawCell cfg toDraw (vps p) p) (sweepIters cfg)).1 := by
  unfold drawFrame at h
  split at h
  · simp at h
  · split at h
    · simp at h
    · rename_i toDraw drawPasses _
      obtain ⟨p, _, hp⟩ := runPasses_mem cfg toDraw vps _ pass h
      exact ⟨toDraw, p, hp⟩

/-- C8: within each pass of `drawFrame` the cells are visited by non-decreasing
diagonal `x + y` and, within one diagonal, by strictly increasing `x`: the loop
iterations `(s, x)` are strictly ordered by `(s, x)`, the cells that pass the
bounds check are strictly ordered by `(x + y, x)`, so none occurs twice, and the
cells drawn in any pass of any frame are a subsequence of them. -/
theorem sweep_diagonal_order (cfg : DisplayConfig) :
    (sweepIters cfg).Pairwise iterLt ∧ (sweep cfg).Pairwise cellLt ∧ (sweep cfg).Nodup ∧
    ∀ (getTile : Int → Int → List Sprite) (vps : Nat → Viewport),
      ∀ pass ∈ (drawFrame cfg getTile vps).passes,
        (pass.map fun c => (c.x, c.y)).Sublist (sweep cfg) ∧
        (pass.map fun c => (c.x, c.y)).Pairwise cellLt := by
  refine ⟨sweepIters_pairwise cfg, sweep_pairwise cfg, ?_, ?_⟩
  · refine (sweep_pairwise cfg).imp ?_
    intro a b hab heq
    subst heq
    unfold cellLt at hab
    omega
  · intro getTile vps pass hpass
    obtain ⟨toDraw, p, rfl⟩ := drawFrame_passes cfg getTile vps pass hpass
    have hsub := runCells_sublist cfg toDraw (vps p) p (sweepIters cfg)
    exact ⟨hsub, (sweep_pairwise cfg).sublist hsub⟩

/-- The sweep does not skip a cell whose stack has exactly `p` sprites in pass
`p`: it reads index `p` of the stack and panics. -/
theorem drawCell_stack_length_eq (cfg : DisplayConfig) (toDraw : List (List Sprite))
    (vp : Viewport) (p : Nat) (it : Int × Int) (stack : List Sprite)
    (hb : outOfBounds cfg it.2 (it.1 - it.2) = false)
    (hs : sliceGet toDraw (it.2 * cfg.MapW + (it.1 - it.2)) = some stack)
    (hl : stack.length = p) :
    drawCell cfg toDraw vp p it = .error .indexOutOfRange := by
  unfold drawCell
  simp only [hb, hs, hl, Bool.false_eq_true, if_false, lt_self_iff_false]
  rw [List.getElem?_eq_none (by omega)]

/-- C1: on the grid of the example (2 x 2 here), with three sprites on cell
`(0, 0)` and one sprite on every other cell, `drawFrame` does not perform the
three passes described: pass 0 draws only the cells `(0, 1)` and `(1, 1)` (no
cell with `y = 0` is ever reached, `(0, 0)` included), and pass 1 panics on
cell `(0, 1)`, reading index 1 of its one-sprite stack. -/
theorem drawFrame_depth3_example (vps : Nat → Viewport) :
    drawFrame ⟨2, 2, 64, 32⟩ (fun x y => if x = 0 ∧ y = 0 then [1, 2, 3] else [7]) vps =
      ⟨[[⟨0, 1, 7, float32OfInt (wrap (32 - (vps 0).X)), float32OfInt (wrap (16 - (vps 0).Y))⟩,
          ⟨1, 1, 7, float32OfInt (wrap (0 - (vps 0).X)), float32OfInt (wrap (32 - (vps 0).Y))⟩],
        []], some .indexOutOfRange⟩ := by
  rfl

/-- C2: the cells that pass the bounds check of the sweep are not the cells of
the grid.  On a 2 x 2 and on a 2 x 3 grid only `(0, 1)` and `(1, 1)` pass: the
grid cells `(0, 0)` and `(1, 0)` are never generated and, on the 2 x 3 grid,
`(0, 2)` is rejected because `y` is compared with the width. -/
theorem sweep_not_grid :
    sweep ⟨2, 2, 64, 32⟩ = [(0, 1), (1, 1)] ∧
    inGrid ⟨2, 2, 64, 32⟩ 0 0 ∧ inGrid ⟨2, 2, 64, 32⟩ 1 0 ∧
    sweep ⟨2, 3, 64, 32⟩ = [(0, 1), (1, 1)] ∧
    inGrid ⟨2, 3, 64, 32⟩ 0 0 ∧ inGrid ⟨2, 3, 64, 32⟩ 1 0 ∧ inGrid ⟨2, 3, 64, 32⟩ 0 2 := by
  decide

/-- C7: a cell whose stack has exactly `p` sprites is not skipped in pass `p`.
On a 2 x 2 grid with one sprite on every cell but `(0, 1)`, whose stack is
empty, pass 0 reaches `(0, 1)`, does not skip it and panics reading index 0 of
the empty stack. -/
theorem drawFrame_empty_stack_panics (vps : Nat → Viewport) :
    drawFrame ⟨2, 2, 64, 32⟩ (fun x y => if x = 0 ∧ y = 1 then [] else [7]) vps =
      ⟨[[]], some .indexOutOfRange⟩ := by
  rfl

end display

/-! ## Sanitising a tile spec -/

namespace resources

theorem sanitize_x (i : Nat) (cfg : TileConfig) (bmpw bmph : Int) :
    (sanitize i cfg bmpw bmph).x = if bmpw < cfg.X then 0 else cfg.X := by
  unfold sanitize
  simp only
  split_ifs <;> rfl

theorem sanitize_y (i : Nat) (cfg : TileConfig) (bmpw bmph : Int) :
    (sanitize i cfg bmpw bmph).y = if bmph < cfg.Y then 0 else cfg.Y := by
  unfold sanitize
  simp only
  split_ifs <;> rfl

theorem sanitize_w (i : Nat) (cfg : TileConfig) (bmpw bmph : Int) :
    (sanitize i cfg bmpw bmph).w =
      if bmpw < cfg.X then (if bmpw = 0 then wrap (bmpw - 0) else bmpw)
      else if bmpw < wrap (cfg.X + cfg.W) then
        (if wrap (bmpw - cfg.X) = 0 then wrap (bmpw - cfg.X) else wrap (bmpw - cfg.X))
      else if cfg.W = 0 then wrap (bmpw - cfg.X) else cfg.W := by
  unfold sanitize
  simp only
  split_ifs <;> rfl

theorem sanitize_h (i : Nat) (cfg : TileConfig) (bmpw bmph : Int) :
    (sanitize i cfg bmpw bmph).h =
      if bmph < cfg.Y then (if bmph = 0 then wrap (bmph - 0) else bmph)
      else if bmph < wrap (cfg.Y + cfg.H) then
        (if wrap (bmph - cfg.Y) = 0 then wrap (bmph - cfg.Y) else wrap (bmph - cfg.Y))
      else if cfg.H = 0 then wrap (bmph - cfg.Y) else cfg.H := by
  unfold sanitize
  simp only
  split_ifs <;> rfl

theorem sanitize_offx (i : Nat) (cfg : TileConfig) (bmpw bmph : Int) :
    (sanitize i cfg bmpw bmph).offx =
      if cfg.OffX > (sanitize i cfg bmpw bmph).w then 0 else cfg.OffX := by
  rfl

theorem sanitize_offy (i : Nat) (cfg : TileConfig) (bmpw bmph : Int) :
    (sanitize i cfg bmpw bmph).offy =
      if cfg.OffY > (sanitize i cfg bmpw bmph).h then 0 else cfg.OffY := by
  rfl

theorem sanitize_index (i : Nat) (cfg : TileConfig) (bmpw bmph : Int) :
    (sanitize i cfg bmpw bmph).index = i := rfl

theorem sanitize_name (i : Nat) (cfg : TileConfig) (bmpw bmph : Int) :
    (sanitize i cfg bmpw bmph).name = cfg.Name := rfl

/-- C6, as stated, fails.  For a 100 x 50 source and the spec
`x:50, w:9223372036854775807` the sum `x + w` wraps around to a negative number,
the size is kept where the rule makes it the remaining extent 50; for the spec
`x:-9223372036854775808, w:0` the remaining extent `100 - x` wraps around. -/
theorem sanitize_crop_overflow :
    (sanitize 0 ⟨"t", "t.png", 50, 0, 9223372036854775807, 10, 0, 0⟩ 100 50).w =
      9223372036854775807 ∧
    specCropAxis 50 9223372036854775807 100 = (50, 50) ∧
    (sanitize 0 ⟨"t", "t.png", -9223372036854775808, 0, 0, 10, 0, 0⟩ 100 50).w =
      -9223372036854775708 ∧
    specCropAxis (-9223372036854775808) 0 100 =
      (-9223372036854775808, 9223372036854775908) := by
  decide

/-- C6, amended: for a tile spec and a source bitmap for which, on each axis,
origin + size and extent - origin stay within the 64-bit range of `int`, the
crop rectangle computed by `CreateResourceManager` is the one of the
specification's rule: an origin beyond the source extent is reset to 0 with the
full extent as size, otherwise a size reaching beyond the extent becomes the
remaining extent, and a requested size of zero becomes the remaining extent from
the (possibly reset) origin.  For a 100 x 50 source the spec
`x:120, y:0, w:40, h:10` gives `x = 0, w = 100` and `x:50, y:0, w:80, h:10`
gives `w = 50`. -/
theorem sanitize_crop_rule (i : Nat) (cfg : TileConfig) (bmpw bmph : Int)
    (hxw : isInt (cfg.X + cfg.W)) (hxe : isInt (bmpw - cfg.X))
    (hyh : isInt (cfg.Y + cfg.H)) (hye : isInt (bmph - cfg.Y)) :
    ((sanitize i cfg bmpw bmph).x, (sanitize i cfg bmpw bmph).w) =
        specCropAxis cfg.X cfg.W bmpw ∧
    ((sanitize i cfg bmpw bmph).y, (sanitize i cfg bmpw bmph).h) =
        specCropAxis cfg.Y cfg.H bmph ∧
    (sanitize i ⟨cfg.Name, cfg.Filename, 120, 0, 40, 10, cfg.OffX, cfg.OffY⟩ 100 50).x = 0 ∧
    (sanitize i ⟨cfg.Name, cfg.Filename, 120, 0, 40, 10, cfg.OffX, cfg.OffY⟩ 100 50).w = 100 ∧
    (sanitize i ⟨cfg.Name, cfg.Filename, 50, 0, 80, 10, cfg.OffX, cfg.OffY⟩ 100 50).w = 50 := by
  unfold isInt at hxw hxe hyh hye
  refine ⟨?_, ?_, ?_, ?_, ?_⟩
  · rw [sanitize_x, sanitize_w]
    unfold specCropAxis wrap
    simp only
    split_ifs <;> rw [Prod.mk.injEq] <;> omega
  · rw [sanitize_y, sanitize_h]
    unfold specCropAxis wrap
    simp only
    split_ifs <;> rw [Prod.mk.injEq] <;> omega
  · rw [sanitize_x]; simp
  · rw [sanitize_w]; simp [wrap]
  · rw [sanitize_w]; simp [wrap]

/-- The amended C6 at the spec `x:50, y:0, w:80, h:10` and a 100 x 50 source
bitmap. -/
theorem sanitize_crop_rule_witness :
    isInt (50 + 80) ∧ isInt (100 - 50) ∧ isInt (0 + 10) ∧ isInt (50 - 0) ∧
    ((sanitize 0 ⟨"t", "t.png", 50, 0, 80, 10, 0, 0⟩ 100 50).x,
      (sanitize 0 ⟨"t", "t.png", 50, 0, 80, 10, 0, 0⟩ 100 50).w) = specCropAxis 50 80 100 ∧
    ((sanitize 0 ⟨"t", "t.png", 50, 0, 80, 10, 0, 0⟩ 100 50).y,
      (sanitize 0 ⟨"t", "t.png", 50, 0, 80, 10, 0, 0⟩ 100 50).h) = specCropAxis 0 10 50 :=
  ⟨by decide, by decide, by decide, by decide,
    (sanitize_crop_rule 0 ⟨"t", "t.png", 50, 0, 80, 10, 0, 0⟩ 100 50
      (by decide) (by decide) (by decide) (by decide)).1,
    (sanitize_crop_rule 0 ⟨"t", "t.png", 50, 0, 80, 10, 0, 0⟩ 100 50
      (by decide) (by decide) (by decide) (by decide)).2.1⟩

/-- C10, as stated, fails: with a negative origin (`x = -5`), a negative size
(`w = -3`) or a negative draw offset (`offx = -2`) the sanitised values are not
in range for a 100 x 50 source bitmap, and with the size
`w = 9223372036854775807` at `x = 50` the sum `x + w` wraps around and the size
is not clamped. -/
theorem sanitize_negative_not_clamped :
    ¬ inRange (sanitize 0 ⟨"t", "t.png", -5, 0, 10, 10, 0, 0⟩ 100 50) 100 50 ∧
    ¬ inRange (sanitize 0 ⟨"t", "t.png", 0, 0, -3, 10, 0, 0⟩ 100 50) 100 50 ∧
    ¬ inRange (sanitize 0 ⟨"t", "t.png", 0, 0, 10, 10, -2, 0⟩ 100 50) 100 50 ∧
    ¬ inRange (sanitize 0 ⟨"t", "t.png", 50, 0, 9223372036854775807, 10, 0, 0⟩ 100 50)
      100 50 := by
  decide

/-- C10, amended: for a tile spec whose crop rectangle and draw offset have no
negative field and whose sums `x + w` and `y + h` stay within the 64-bit range
of `int`, and a source bitmap of size `bmpw` x `bmph`, the sanitised values are
in range: `0 <= x`, `0 <= w`, `x + w <= bmpw`, `0 <= y`, `0 <= h`,
`y + h <= bmph`, `0 <= offx <= w` and `0 <= offy <= h`. -/
theorem sanitize_inRange (i : Nat) (cfg : TileConfig) (bmpw bmph : Int)
    (hcrop : validCrop cfg) (hox : 0 ≤ cfg.OffX) (hoy : 0 ≤ cfg.OffY)
    (hxw : isInt (cfg.X + cfg.W)) (hyh : isInt (cfg.Y + cfg.H))
    (hw : 0 ≤ bmpw) (hh : 0 ≤ bmph) (hbw : isInt bmpw) (hbh : isInt bmph) :
    inRange (sanitize i cfg bmpw bmph) bmpw bmph := by
  obtain ⟨hX, hY, hW, hH⟩ := hcrop
  unfold isInt at hxw hyh hbw hbh
  unfold inRange
  rw [sanitize_offx, sanitize_offy, sanitize_x, sanitize_y, sanitize_w, sanitize_h]
  unfold wrap
  refine ⟨?_, ?_, ?_, ?_, ?_, ?_, ?_, ?_, ?_, ?_⟩ <;> split_ifs <;> omega

/-- The amended C10 at the spec `x:50, y:0, w:80, h:10, offx:60, offy:4` and a
100 x 50 source bitmap. -/
theorem sanitize_inRange_witness :
    validCrop ⟨"t", "t.png", 50, 0, 80, 10, 60, 4⟩ ∧ isInt (50 + 80) ∧ isInt (0 + 10) ∧
    inRange (sanitize 0 ⟨"t", "t.png", 50, 0, 80, 10, 60, 4⟩ 100 50) 100 50 :=
  ⟨by decide, by decide, by decide,
    sanitize_inRange 0 ⟨"t", "t.png", 50, 0, 80, 10, 60, 4⟩ 100 50
      (by decide) (by decide) (by decide) (by decide) (by decide) (by decide) (by decide)
      (by decide) (by decide)⟩

/-! ## The loops of `CreateResourceManager` -/

theorem loadTiles_fst_indep (load : String → Int × Int) (cfgs : List TileConfig)
    (i : Nat) (mh tw mh' tw' : Int) :
    (loadTiles load i mh tw cfgs).1 = (loadTiles load i mh' tw' cfgs).1 := by
  induction cfgs generalizing i mh tw mh' tw' with
  | nil => rfl
  | cons c rest ih =>
    simp only [loadTiles]
    rw [ih]

theorem loadTiles_fst_append (load : String → Int × Int) (a b : List TileConfig)
    (i : Nat) (mh tw : Int) :
    (loadTiles load i mh tw (a ++ b)).1 =
      (loadTiles load i mh tw a).1 ++ (loadTiles load (i + a.length) mh tw b).1 := by
  induction a generalizing i mh tw with
  | nil => simp [loadTiles]
  | cons c rest ih =>
    simp only [List.cons_append, loadTiles, List.length_cons, List.append_eq]
    rw [ih, loadTiles_fst_indep load b (i + 1 + rest.length) _ _ mh tw,
      Nat.add_assoc, Nat.add_comm 1]

theorem loadTiles_length (load : String → Int × Int) (cfgs : List TileConfig)
    (i : Nat) (mh tw : Int) :
    (loadTiles load i mh tw cfgs).1.length = cfgs.length := by
  induction cfgs generalizing i mh tw with
  | nil => rfl
  | cons c rest ih => simp only [loadTiles, List.length_cons, ih]

theorem loadTiles_map_w (load : String → Int × Int) (cfgs : List TileConfig)
    (i : Nat) (mh tw : Int) :
    (loadTiles load i mh tw cfgs).1.map (fun md => md.w) = cfgs.map (sanitizedW load) := by
  induction cfgs generalizing i mh tw with
  | nil => rfl
  | cons c rest ih =>
    simp only [loadTiles, List.map_cons, ih]
    rfl

theorem loadTiles_map_h (load : String → Int × Int) (cfgs : List TileConfig)
    (i : Nat) (mh tw : Int) :
    (loadTiles load i mh tw cfgs).1.map (fun md => md.h) = cfgs.map (sanitizedH load) := by
  induction cfgs generalizing i mh tw with
  | nil => rfl
  | cons c rest ih =>
    simp only [loadTiles, List.map_cons, ih]
    rfl

theorem loadTiles_map_name (load : String → Int × Int) (cfgs : List TileConfig)
    (i : Nat) (mh tw : Int) :
    (loadTiles load i mh tw cfgs).1.map (fun md => md.name) = cfgs.map (fun c => c.Name) := by
  induction cfgs generalizing i mh tw with
  | nil => rfl
  | cons c rest ih =>
    simp only [loadTiles, List.map_cons, ih]
    rfl

theorem loadTiles_map_index (load : String → Int × Int) (cfgs : List TileConfig)
    (i : Nat) (mh tw : Int) :
    (loadTiles load i mh tw cfgs).1.map (fun md => md.index) = List.range' i cfgs.length := by
  induction cfgs generalizing i mh tw with
  | nil => rfl
  | cons c rest ih =>
    simp only [loadTiles, List.map_cons, ih, List.length_cons, List.range'_succ]
    rfl

theorem loadTiles_totalWidth (load : String → Int × Int) (cfgs : List TileConfig)
    (i : Nat) (mh tw : Int) :
    (loadTiles load i mh (wrap tw) cfgs).2.2 =
      wrap (tw + (cfgs.map (sanitizedW load)).sum) := by
  induction cfgs generalizing i mh tw with
  | nil => simp [loadTiles]
  | cons c rest ih =>
    have hw : (sanitize i c (bitmapDimensions load c).1 (bitmapDimensions load c).2).w =
        sanitizedW load c := by
      unfold sanitizedW
      rw [sanitize_w, sanitize_w 0]
    simp only [loadTiles, List.map_cons, List.sum_cons, hw]
    rw [wrap_wrap_add, ih, Int.add_assoc]

theorem loadTiles_maxHeight (load : String → Int × Int) (cfgs : List TileConfig)
    (i : Nat) (mh tw : Int) :
    mh ≤ (loadTiles load i mh tw cfgs).2.1 ∧
    (∀ c ∈ cfgs, sanitizedH load c ≤ (loadTiles load i mh tw cfgs).2.1) ∧
    ((loadTiles load i mh tw cfgs).2.1 = mh ∨
      ∃ c ∈ cfgs, sanitizedH load c = (loadTiles load i mh tw cfgs).2.1) := by
  induction cfgs generalizing i mh tw with
  | nil => simp [loadTiles]
  | cons c rest ih =>
    simp only [loadTiles, List.mem_cons, forall_eq_or_imp, exists_eq_or_imp]
    have hh : (sanitize i c (bitmapDimensions load c).1 (bitmapDimensions load c).2).h =
        sanitizedH load c := by
      unfold sanitizedH
      rw [sanitize_h, sanitize_h 0]
    rw [hh]
    generalize wrap (tw +
      (sanitize i c (bitmapDimensions load c).1 (bitmapDimensions load c).2).w) = tw'
    by_cases hc : sanitizedH load c > mh
    · rw [if_pos hc]
      obtain ⟨h1, h2, h3⟩ := ih (i + 1) (sanitizedH load c) tw'
      refine ⟨by omega, ⟨h1, h2⟩, ?_⟩
      rcases h3 with h3 | h3
      · right; left; exact h3.symm
      · right; right; exact h3
    · rw [if_neg hc]
      obtain ⟨h1, h2, h3⟩ := ih (i + 1) mh tw'
      refine ⟨h1, ⟨by omega, h2⟩, ?_⟩
      rcases h3 with h3 | h3
      · left; exact h3
      · right; right; exact h3

theorem placeTiles_length (p : Int) (l : List tileMetadata) :
    (placeTiles p l).length = l.length := by
  induction l generalizing p with
  | nil => rfl
  | cons m rest ih => simp only [placeTiles, List.length_cons, ih]

theorem placeTiles_map_w (p : Int) (l : List tileMetadata) :
    (placeTiles p l).map (fun md => md.w) = l.map (fun md => md.w) := by
  induction l generalizing p with
  | nil => rfl
  | cons m rest ih => simp only [placeTiles, List.map_cons, ih]

theorem placeTiles_map_h (p : Int) (l : List tileMetadata) :
    (placeTiles p l).map (fun md => md.h) = l.map (fun md => md.h) := by
  induction l generalizing p with
  | nil => rfl
  | cons m rest ih => simp only [placeTiles, List.map_cons, ih]

theorem placeTiles_map_name (p : Int) (l : List tileMetadata) :
    (placeTiles p l).map (fun md => md.name) = l.map (fun md => md.name) := by
  induction l generalizing p with
  | nil => rfl
  | cons m rest ih => simp only [placeTiles, List.map_cons, ih]

theorem placeTiles_map_index (p : Int) (l : List tileMetadata) :
    (placeTiles p l).map (fun md => md.index) = l.map (fun md => md.index) := by
  induction l generalizing p with
  | nil => rfl
  | cons m rest ih => simp only [placeTiles, List.map_cons, ih]

theorem placeTiles_append (p : Int) (a b : List tileMetadata) :
    placeTiles (wrap p) (a ++ b) =
      placeTiles (wrap p) a ++ placeTiles (wrap (p + (a.map (fun md => md.w)).sum)) b := by
  induction a generalizing p with
  | nil => simp [placeTiles]
  | cons m rest ih =>
    simp only [List.cons_append, placeTiles, List.map_cons, List.sum_cons, List.append_eq,
      List.cons.injEq, true_and]
    rw [wrap_wrap_add, ih, Int.add_assoc]

theorem placeTiles_y (p : Int) (l : List tileMetadata) :
    ∀ md ∈ placeTiles p l, md.y = 0 := by
  induction l generalizing p with
  | nil => simp [placeTiles]
  | cons m rest ih =>
    simp only [placeTiles, List.mem_cons, forall_eq_or_imp]
    exact ⟨trivial, ih _⟩

theorem placeTiles_x (p : Int) (l : List tileMetadata) (hw : ∀ m ∈ l, 0 ≤ m.w)
    (hp : 0 ≤ p) (hsum : p + (l.map (fun md => md.w)).sum < 9223372036854775808) :
    ∀ md ∈ placeTiles p l, p ≤ md.x ∧ md.x + md.w ≤ p + (l.map (fun md => md.w)).sum := by
  induction l generalizing p with
  | nil => simp [placeTiles]
  | cons m rest ih =>
    have hm : 0 ≤ m.w := hw m (by simp)
    have hrest : ∀ m ∈ rest, 0 ≤ m.w := fun a ha => hw a (by simp [ha])
    have hnn : 0 ≤ (rest.map (fun md => md.w)).sum := by
      apply List.sum_nonneg
      intro a ha
      simp only [List.mem_map] at ha
      obtain ⟨b, hb, rfl⟩ := ha
      exact hrest b hb
    simp only [List.map_cons, List.sum_cons] at hsum
    have hwrap : wrap (p + m.w) = p + m.w := wrap_of_isInt _ ⟨by omega, by omega⟩
    simp only [placeTiles, List.mem_cons, forall_eq_or_imp, List.map_cons, List.sum_cons]
    refine ⟨⟨le_refl _, by omega⟩, ?_⟩
    intro md hmd
    rw [hwrap] at hmd
    obtain ⟨h1, h2⟩ := ih (p + m.w) hrest (by omega) (by omega) md hmd
    omega

theorem placeTiles_pairwise (p : Int) (l : List tileMetadata) (hw : ∀ m ∈ l, 0 ≤ m.w)
    (hp : 0 ≤ p) (hsum : p + (l.map (fun md => md.w)).sum < 9223372036854775808) :
    (placeTiles p l).Pairwise (fun a b => a.x + a.w ≤ b.x) := by
  induction l generalizing p with
  | nil => simp [placeTiles]
  | cons m rest ih =>
    have hm : 0 ≤ m.w := hw m (by simp)
    have hrest : ∀ m ∈ rest, 0 ≤ m.w := fun a ha => hw a (by simp [ha])
    have hnn : 0 ≤ (rest.map (fun md => md.w)).sum := by
      apply List.sum_nonneg
      intro a ha
      simp only [List.mem_map] at ha
      obtain ⟨b, hb, rfl⟩ := ha
      exact hrest b hb
    simp only [List.map_cons, List.sum_cons] at hsum
    have hwrap : wrap (p + m.w) = p + m.w := wrap_of_isInt _ ⟨by omega, by omega⟩
    simp only [placeTiles, List.pairwise_cons]
    rw [hwrap]
    refine ⟨?_, ih _ hrest (by omega) (by omega)⟩
    intro md hmd
    exact (placeTiles_x (p + m.w) rest hrest (by omega) (by omega) md hmd).1

theorem populate_eq (subOk : Int → Int → Int → Int → Bool) (l : List tileMetadata)
    (maps : List (String × Nat) × List (String × Option SubBitmap)) :
    populate subOk l maps =
      (l.reverse.map (fun v => (v.name, v.index)) ++ maps.1,
        l.reverse.map (fun v => (v.name, createSubBitmap subOk v.x v.y v.w v.h)) ++ maps.2) := by
  induction l generalizing maps with
  | nil => simp [populate]
  | cons v rest ih =>
    simp only [populate, ih, List.reverse_cons, List.map_append, List.map_cons, List.map_nil,
      List.append_assoc, List.singleton_append]

/-! ## The resource manager that `CreateResourceManager` builds -/

theorem lookup_map_name {β : Type} (g : tileMetadata → β) (l : List tileMetadata)
    (name : String) :
    (l.map (fun v => (v.name, g v))).lookup name =
      (l.find? (fun v => name == v.name)).map g := by
  induction l with
  | nil => rfl
  | cons v rest ih =>
    simp only [List.map_cons, List.lookup_cons, List.find?_cons]
    cases h : name == v.name with
    | true => simp
    | false => simpa using ih

theorem sanitize_default (load : String → Int × Int) (i : Nat) :
    sanitize i defaultTileConfig (bitmapDimensions load defaultTileConfig).1
      (bitmapDimensions load defaultTileConfig).2 =
      ⟨i, 0, 0, 128, 128, 0, 0, DEFAULT_TILE_NAME⟩ := by
  have hd : bitmapDimensions load defaultTileConfig = (128, 128) := by
    simp [bitmapDimensions, defaultTileConfig, DEFAULT_TILE_WIDTH, DEFAULT_TILE_HEIGHT]
  rw [hd]
  rfl

theorem tileMetadatas_eq (load : String → Int × Int) (subOk : Int → Int → Int → Int → Bool)
    (tiles : List TileConfig) :
    (CreateResourceManager load subOk tiles).tileMetadatas =
      placeTiles 0 (loadTiles load 0 0 0 tiles).1 ++
        [⟨tiles.length, wrap ((tiles.map (sanitizedW load)).sum), 0, 128, 128, 0, 0,
          DEFAULT_TILE_NAME⟩] := by
  show placeTiles 0 (loadTiles load 0 0 0 (tiles ++ [defaultTileConfig])).1 = _
  rw [loadTiles_fst_append]
  conv_lhs => rw [← wrap_zero]
  rw [placeTiles_append, loadTiles_map_w]
  simp only [loadTiles, sanitize_default, placeTiles, Nat.zero_add, Int.zero_add, wrap_zero]

theorem tileMetadatas_map_index (load : String → Int × Int)
    (subOk : Int → Int → Int → Int → Bool) (tiles : List TileConfig) :
    (CreateResourceManager load subOk tiles).tileMetadatas.map (fun md => md.index) =
      List.range (CreateResourceManager load subOk tiles).tileMetadatas.length := by
  show (placeTiles 0 (loadTiles load 0 0 0 (tiles ++ [defaultTileConfig])).1).map _ =
    List.range (placeTiles 0 (loadTiles load 0 0 0 (tiles ++ [defaultTileConfig])).1).length
  rw [placeTiles_map_index, loadTiles_map_index, placeTiles_length, loadTiles_length,
    List.range_eq_range']

theorem tileMetadatas_getElem_index (load : String → Int × Int)
    (subOk : Int → Int → Int → Int → Bool) (tiles : List TileConfig) (v : tileMetadata)
    (hv : v ∈ (CreateResourceManager load subOk tiles).tileMetadatas) :
    (CreateResourceManager load subOk tiles).tileMetadatas[v.index]? = some v := by
  obtain ⟨k, hk⟩ := List.getElem?_of_mem hv
  have h1 : ((CreateResourceManager load subOk tiles).tileMetadatas.map
      (fun md => md.index))[k]? = some v.index := by
    rw [List.getElem?_map, hk]
    rfl
  rw [tileMetadatas_map_index] at h1
  have h2 := List.getElem?_eq_some_iff.1 h1
  obtain ⟨hlt, heq⟩ := h2
  rw [List.getElem_range] at heq
  rw [← heq]
  exact hk

/-- What `GetTile` returns on a built manager: the tile is the last metadata
entry carrying the name, served from the sub-bitmap cache. -/
theorem GetTile_eq (load : String → Int × Int) (subOk : Int → Int → Int → Int → Bool)
    (tiles : List TileConfig) (name : String) :
    GetTile subOk (CreateResourceManager load subOk tiles) name =
      match (CreateResourceManager load subOk tiles).tileMetadatas.reverse.find?
          (fun v => name == v.name) with
      | none => .ok none
      | some v =>
        match createSubBitmap subOk v.x v.y v.w v.h with
        | none => .ok none
        | some sub => .ok (some ⟨sub, v.offx, v.offy⟩) := by
  have hpos : (CreateResourceManager load subOk tiles).tilePositions =
      (CreateResourceManager load subOk tiles).tileMetadatas.reverse.map
        (fun v => (v.name, v.index)) := by
    show (populate subOk _ ([], [])).1 = _
    rw [populate_eq]
    simp only [List.append_nil]
    rfl
  have hsub : (CreateResourceManager load subOk tiles).tileSubs =
      (CreateResourceManager load subOk tiles).tileMetadatas.reverse.map
        (fun v => (v.name, createSubBitmap subOk v.x v.y v.w v.h)) := by
    show (populate subOk _ ([], [])).2 = _
    rw [populate_eq]
    simp only [List.append_nil]
    rfl
  unfold GetTile
  rw [hpos, hsub, lookup_map_name, lookup_map_name]
  cases hf : (CreateResourceManager load subOk tiles).tileMetadatas.reverse.find?
      (fun v => name == v.name) with
  | none => rfl
  | some v =>
    have hv : v ∈ (CreateResourceManager load subOk tiles).tileMetadatas :=
      List.mem_reverse.1 (List.mem_of_find?_eq_some hf)
    simp only [Option.map_some']
    rw [tileMetadatas_getElem_index load subOk tiles v hv]

theorem find_default (load : String → Int × Int) (subOk : Int → Int → Int → Int → Bool)
    (tiles : List TileConfig) :
    (CreateResourceManager load subOk tiles).tileMetadatas.reverse.find?
        (fun v => DEFAULT_TILE_NAME == v.name) =
      some ⟨tiles.length, wrap ((tiles.map (sanitizedW load)).sum), 0, 128, 128, 0, 0,
        DEFAULT_TILE_NAME⟩ := by
  rw [tileMetadatas_eq]
  simp

theorem find_absent (load : String → Int × Int) (subOk : Int → Int → Int → Int → Bool)
    (tiles : List TileConfig) (name : String) (habs : ∀ c ∈ tiles, c.Name ≠ name)
    (hne : name ≠ DEFAULT_TILE_NAME) :
    (CreateResourceManager load subOk tiles).tileMetadatas.reverse.find?
        (fun v => name == v.name) = none := by
  rw [List.find?_eq_none]
  intro v hv
  have hv' : v.name ∈ (CreateResourceManager load subOk tiles).tileMetadatas.map
      (fun md => md.name) := List.mem_map.2 ⟨v, List.mem_reverse.1 hv, rfl⟩
  have hn : (CreateResourceManager load subOk tiles).tileMetadatas.map (fun md => md.name) =
      (tiles ++ [defaultTileConfig]).map (fun c => c.Name) := by
    show (placeTiles 0 (loadTiles load 0 0 0 (tiles ++ [defaultTileConfig])).1).map _ = _
    rw [placeTiles_map_name, loadTiles_map_name]
  rw [hn] at hv'
  simp only [List.map_append, List.map_cons, List.map_nil, List.mem_append, List.mem_map,
    List.mem_singleton] at hv'
  simp only [beq_iff_eq, Bool.not_eq_true, beq_eq_false_iff_ne, ne_eq]
  rcases hv' with ⟨c, hc, hcn⟩ | hd
  · intro h
    exact habs c hc (by rw [hcn, h])
  · intro h
    exact hne (by rw [h, hd]; rfl)

theorem find_present (load : String → Int × Int) (subOk : Int → Int → Int → Int → Bool)
    (tiles : List TileConfig) (name : String) (hpres : ∃ c ∈ tiles, c.Name = name) :
    ∃ v, (CreateResourceManager load subOk tiles).tileMetadatas.reverse.find?
        (fun v => name == v.name) = some v := by
  cases hf : (CreateResourceManager load subOk tiles).tileMetadatas.reverse.find?
      (fun v => name == v.name) with
  | some v => exact ⟨v, rfl⟩
  | none =>
    exfalso
    rw [List.find?_eq_none] at hf
    obtain ⟨c, hc, hcn⟩ := hpres
    have hn : (CreateResourceManager load subOk tiles).tileMetadatas.map (fun md => md.name) =
        (tiles ++ [defaultTileConfig]).map (fun c => c.Name) := by
      show (placeTiles 0 (loadTiles load 0 0 0 (tiles ++ [defaultTileConfig])).1).map _ = _
      rw [placeTiles_map_name, loadTiles_map_name]
    have hmem : name ∈ (CreateResourceManager load subOk tiles).tileMetadatas.map
        (fun md => md.name) := by
      rw [hn]
      simp only [List.map_append, List.mem_append, List.mem_map]
      exact Or.inl ⟨c, hc, hcn⟩
    obtain ⟨v, hv, hvn⟩ := List.mem_map.1 hmem
    have := hf v (List.mem_reverse.2 hv)
    simp only [beq_iff_eq] at this
    exact this hvn.symm

theorem bitmapDimensions_pos (load : String → Int × Int)
    (hbmp : ∀ f, 0 < (load f).1 ∧ 0 < (load f).2) (c : TileConfig) :
    0 < (bitmapDimensions load c).1 ∧ 0 < (bitmapDimensions load c).2 := by
  unfold bitmapDimensions
  split_ifs
  · exact ⟨by decide, by decide⟩
  · exact hbmp c.Filename

theorem bitmapDimensions_isInt (load : String → Int × Int)
    (hint : ∀ f, isInt (load f).1 ∧ isInt (load f).2) (c : TileConfig) :
    isInt (bitmapDimensions load c).1 ∧ isInt (bitmapDimensions load c).2 := by
  unfold bitmapDimensions
  split_ifs
  · exact ⟨by decide, by decide⟩
  · exact hint c.Filename

theorem sanitizedW_nonneg (load : String → Int × Int)
    (hbmp : ∀ f, 0 < (load f).1 ∧ 0 < (load f).2)
    (hint : ∀ f, isInt (load f).1 ∧ isInt (load f).2) (c : TileConfig) (hc : validCrop c) :
    0 ≤ sanitizedW load c := by
  obtain ⟨hX, _, hW, _⟩ := hc
  have hp := (bitmapDimensions_pos load hbmp c).1
  have hi := (bitmapDimensions_isInt load hint c).1
  unfold isInt at hi
  unfold sanitizedW
  rw [sanitize_w]
  unfold wrap
  split_ifs <;> omega

theorem tileMetadatas_map_w (load : String → Int × Int)
    (subOk : Int → Int → Int → Int → Bool) (tiles : List TileConfig) :
    (CreateResourceManager load subOk tiles).tileMetadatas.map (fun md => md.w) =
      (tiles ++ [defaultTileConfig]).map (sanitizedW load) := by
  show (placeTiles 0 (loadTiles load 0 0 0 (tiles ++ [defaultTileConfig])).1).map _ = _
  rw [placeTiles_map_w, loadTiles_map_w]

theorem tileMetadatas_map_h (load : String → Int × Int)
    (subOk : Int → Int → Int → Int → Bool) (tiles : List TileConfig) :
    (CreateResourceManager load subOk tiles).tileMetadatas.map (fun md => md.h) =
      (tiles ++ [defaultTileConfig]).map (sanitizedH load) := by
  show (placeTiles 0 (loadTiles load 0 0 0 (tiles ++ [defaultTileConfig])).1).map _ = _
  rw [placeTiles_map_h, loadTiles_map_h]

theorem atlasW_eq (load : String → Int × Int) (subOk : Int → Int → Int → Int → Bool)
    (tiles : List TileConfig) :
    (CreateResourceManager load subOk tiles).atlasW =
      wrap ((tiles ++ [defaultTileConfig]).map (sanitizedW load)).sum := by
  show (loadTiles load 0 0 0 (tiles ++ [defaultTileConfig])).2.2 = _
  conv_lhs => rw [← wrap_zero]
  rw [loadTiles_totalWidth, Int.zero_add]

theorem sanitizedH_default (load : String → Int × Int) :
    sanitizedH load defaultTileConfig = 128 := by
  unfold sanitizedH
  rw [sanitize_default]

theorem atlasH_max (load : String → Int × Int) (subOk : Int → Int → Int → Int → Bool)
    (tiles : List TileConfig) :
    (∀ c ∈ tiles ++ [defaultTileConfig],
      sanitizedH load c ≤ (CreateResourceManager load subOk tiles).atlasH) ∧
    ∃ c ∈ tiles ++ [defaultTileConfig],
      sanitizedH load c = (CreateResourceManager load subOk tiles).atlasH := by
  show (∀ c ∈ tiles ++ [defaultTileConfig],
      sanitizedH load c ≤ (loadTiles load 0 0 0 (tiles ++ [defaultTileConfig])).2.1) ∧
    ∃ c ∈ tiles ++ [defaultTileConfig],
      sanitizedH load c = (loadTiles load 0 0 0 (tiles ++ [defaultTileConfig])).2.1
  obtain ⟨_, h2, h3⟩ := loadTiles_maxHeight load (tiles ++ [defaultTileConfig]) 0 0 0
  refine ⟨h2, ?_⟩
  rcases h3 with h3 | h3
  · exfalso
    have hd := h2 defaultTileConfig (by simp)
    rw [sanitizedH_default, h3] at hd
    omega
  · exact h3

/-- C3, as stated, fails.  The one-tile list with the crop `x:50, w:9223372036854775807`
of a 100 x 50 bitmap has no negative field; its recorded width is
9223372036854775807, the atlas width wraps around to -9223372036854775681, and
the rectangles do not lie within the atlas. -/
theorem atlas_overflow_not_within :
    (∀ c ∈ [(⟨"a", "a.png", 50, 0, 9223372036854775807, 10, 0, 0⟩ : TileConfig)],
      validCrop c) ∧
    (CreateResourceManager (fun _ => (100, 50)) (fun _ _ _ _ => true)
      [⟨"a", "a.png", 50, 0, 9223372036854775807, 10, 0, 0⟩]).atlasW =
        -9223372036854775681 ∧
    ¬ ∀ md ∈ (CreateResourceManager (fun _ => (100, 50)) (fun _ _ _ _ => true)
        [⟨"a", "a.png", 50, 0, 9223372036854775807, 10, 0, 0⟩]).tileMetadatas,
      withinAtlas md
        (CreateResourceManager (fun _ => (100, 50)) (fun _ _ _ _ => true)
          [⟨"a", "a.png", 50, 0, 9223372036854775807, 10, 0, 0⟩]).atlasW
        (CreateResourceManager (fun _ => (100, 50)) (fun _ _ _ _ => true)
          [⟨"a", "a.png", 50, 0, 9223372036854775807, 10, 0, 0⟩]).atlasH := by
  decide

/-- C3, amended: for a tile-spec list with no negative crop field and source
bitmaps of positive size, when the sum of the sanitised widths of all tiles (the
default tile included) stays within the 64-bit range of `int`, the metadata
rectangles recorded by `CreateResourceManager` are pairwise non-overlapping and
each lies within the atlas: `0 <= x`, `x + w <= atlas width`, `0 <= y`,
`y + h <= atlas height`. -/
theorem atlas_rectangles_disjoint (load : String → Int × Int)
    (subOk : Int → Int → Int → Int → Bool) (tiles : List TileConfig)
    (hcrop : ∀ c ∈ tiles, validCrop c) (hbmp : ∀ f, 0 < (load f).1 ∧ 0 < (load f).2)
    (hint : ∀ f, isInt (load f).1 ∧ isInt (load f).2)
    (hsum : ((tiles ++ [defaultTileConfig]).map (sanitizedW load)).sum <
      9223372036854775808) :
    (CreateResourceManager load subOk tiles).tileMetadatas.Pairwise
        (fun a b => ¬ overlaps a b) ∧
    ∀ md ∈ (CreateResourceManager load subOk tiles).tileMetadatas,
      withinAtlas md (CreateResourceManager load subOk tiles).atlasW
        (CreateResourceManager load subOk tiles).atlasH := by
  have hw : ∀ m ∈ (loadTiles load 0 0 0 (tiles ++ [defaultTileConfig])).1, 0 ≤ m.w := by
    intro m hm
    have hm' : m.w ∈ (loadTiles load 0 0 0 (tiles ++ [defaultTileConfig])).1.map
        (fun md => md.w) := List.mem_map.2 ⟨m, hm, rfl⟩
    rw [loadTiles_map_w] at hm'
    obtain ⟨c, hc, hcw⟩ := List.mem_map.1 hm'
    rw [← hcw]
    apply sanitizedW_nonneg load hbmp hint
    rcases List.mem_append.1 hc with h | h
    · exact hcrop c h
    · rw [List.mem_singleton.1 h]
      decide
  have hsum' : 0 + ((loadTiles load 0 0 0 (tiles ++ [defaultTileConfig])).1.map
      (fun md => md.w)).sum < 9223372036854775808 := by
    rw [loadTiles_map_w, Int.zero_add]
    exact hsum
  have hnn : 0 ≤ ((tiles ++ [defaultTileConfig]).map (sanitizedW load)).sum := by
    rw [← loadTiles_map_w load _ 0 0 0]
    apply List.sum_nonneg
    intro a ha
    obtain ⟨b, hb, rfl⟩ := List.mem_map.1 ha
    exact hw b hb
  have hatlas : (CreateResourceManager load subOk tiles).atlasW =
      ((tiles ++ [defaultTileConfig]).map (sanitizedW load)).sum := by
    rw [atlasW_eq]
    exact wrap_of_isInt _ ⟨by omega, hsum⟩
  constructor
  · refine (placeTiles_pairwise 0 _ hw (le_refl _) hsum').imp ?_
    intro a b hab hov
    unfold overlaps at hov
    have := hov.1
    rw [lt_min_iff, max_lt_iff, max_lt_iff] at this
    omega
  · intro md hmd
    obtain ⟨hx1, hx2⟩ := placeTiles_x 0 _ hw (le_refl _) hsum' md hmd
    have hy := placeTiles_y 0 _ md hmd
    have hh : md.h ∈ (CreateResourceManager load subOk tiles).tileMetadatas.map
        (fun md => md.h) := List.mem_map.2 ⟨md, hmd, rfl⟩
    rw [tileMetadatas_map_h] at hh
    obtain ⟨c, hc, hch⟩ := List.mem_map.1 hh
    have hmax := (atlasH_max load subOk tiles).1 c hc
    rw [loadTiles_map_w, Int.zero_add, ← hatlas] at hx2
    unfold withinAtlas
    refine ⟨hx1, hx2, by omega, by omega⟩

/-- The amended C3 at two tile specs cropped from 100 x 50 bitmaps. -/
theorem atlas_rectangles_disjoint_witness :
    (∀ c ∈ [(⟨"a", "a.png", 120, 0, 40, 10, 0, 0⟩ : TileConfig),
        ⟨"b", "b.png", 50, 0, 80, 10, 3, 30⟩], validCrop c) ∧
    (([(⟨"a", "a.png", 120, 0, 40, 10, 0, 0⟩ : TileConfig),
        ⟨"b", "b.png", 50, 0, 80, 10, 3, 30⟩] ++ [defaultTileConfig]).map
      (sanitizedW (fun _ => (100, 50)))).sum < 9223372036854775808 ∧
    (CreateResourceManager (fun _ => (100, 50)) (fun _ _ _ _ => true)
        [⟨"a", "a.png", 120, 0, 40, 10, 0, 0⟩,
          ⟨"b", "b.png", 50, 0, 80, 10, 3, 30⟩]).tileMetadatas.Pairwise
        (fun a b => ¬ overlaps a b) ∧
    ∀ md ∈ (CreateResourceManager (fun _ => (100, 50)) (fun _ _ _ _ => true)
        [⟨"a", "a.png", 120, 0, 40, 10, 0, 0⟩,
          ⟨"b", "b.png", 50, 0, 80, 10, 3, 30⟩]).tileMetadatas,
      withinAtlas md 278 128 :=
  ⟨by decide, by decide,
    atlas_rectangles_disjoint (fun _ => (100, 50)) (fun _ _ _ _ => true)
      [⟨"a", "a.png", 120, 0, 40, 10, 0, 0⟩, ⟨"b", "b.png", 50, 0, 80, 10, 3, 30⟩]
      (by decide) (fun _ => ⟨by simp, by simp⟩) (fun _ => ⟨by simp [isInt], by simp [isInt]⟩)
      (by decide)⟩

/-- C9, as stated, fails.  For the one-tile list with the crop
`x:50, w:9223372036854775807` of a 100 x 50 bitmap the sanitised widths are
9223372036854775807 and 128, their sum is 9223372036854775935, and the atlas is
created with the width -9223372036854775681. -/
theorem atlas_width_overflow :
    ([(⟨"a", "a.png", 50, 0, 9223372036854775807, 10, 0, 0⟩ : TileConfig),
        defaultTileConfig].map (sanitizedW (fun _ => (100, 50)))).sum =
      9223372036854775935 ∧
    (CreateResourceManager (fun _ => (100, 50)) (fun _ _ _ _ => true)
      [⟨"a", "a.png", 50, 0, 9223372036854775807, 10, 0, 0⟩]).atlasW =
        -9223372036854775681 := by
  decide

/-- C9, amended: the atlas created by `CreateResourceManager` has as width the
sum of the sanitised widths of all tiles (the caller's specs followed by the
default tile) wrapped around to the 64 bits of `int`, which is the sum itself
when the sum stays within that range, and as height the maximum of their
sanitised heights; the recorded metadata carry exactly these sanitised widths
and heights. -/
theorem atlas_dimensions (load : String → Int × Int)
    (subOk : Int → Int → Int → Int → Bool) (tiles : List TileConfig) :
    (CreateResourceManager load subOk tiles).atlasW =
      wrap ((tiles ++ [defaultTileConfig]).map (sanitizedW load)).sum ∧
    (isInt ((tiles ++ [defaultTileConfig]).map (sanitizedW load)).sum →
      (CreateResourceManager load subOk tiles).atlasW =
        ((tiles ++ [defaultTileConfig]).map (sanitizedW load)).sum) ∧
    (∀ c ∈ tiles ++ [defaultTileConfig],
      sanitizedH load c ≤ (CreateResourceManager load subOk tiles).atlasH) ∧
    (∃ c ∈ tiles ++ [defaultTileConfig],
      sanitizedH load c = (CreateResourceManager load subOk tiles).atlasH) ∧
    (CreateResourceManager load subOk tiles).tileMetadatas.map (fun md => md.w) =
      (tiles ++ [defaultTileConfig]).map (sanitizedW load) ∧
    (CreateResourceManager load subOk tiles).tileMetadatas.map (fun md => md.h) =
      (tiles ++ [defaultTileConfig]).map (sanitizedH load) :=
  ⟨atlasW_eq load subOk tiles,
    fun h => by rw [atlasW_eq]; exact wrap_of_isInt _ h,
    (atlasH_max load subOk tiles).1,
    (atlasH_max load subOk tiles).2, tileMetadatas_map_w load subOk tiles,
    tileMetadatas_map_h load subOk tiles⟩

/-- The amended C9 at two tile specs cropped from 100 x 50 bitmaps: the widths
100, 50 and 128 sum to the atlas width 278. -/
theorem atlas_dimensions_witness :
    isInt (([(⟨"a", "a.png", 120, 0, 40, 10, 0, 0⟩ : TileConfig),
        ⟨"b", "b.png", 50, 0, 80, 10, 3, 30⟩] ++ [defaultTileConfig]).map
      (sanitizedW (fun _ => (100, 50)))).sum ∧
    (CreateResourceManager (fun _ => (100, 50)) (fun _ _ _ _ => true)
        [⟨"a", "a.png", 120, 0, 40, 10, 0, 0⟩, ⟨"b", "b.png", 50, 0, 80, 10, 3, 30⟩]).atlasW =
      (([(⟨"a", "a.png", 120, 0, 40, 10, 0, 0⟩ : TileConfig),
        ⟨"b", "b.png", 50, 0, 80, 10, 3, 30⟩] ++ [defaultTileConfig]).map
      (sanitizedW (fun _ => (100, 50)))).sum :=
  ⟨by decide,
    (atlas_dimensions (fun _ => (100, 50)) (fun _ _ _ _ => true)
      [⟨"a", "a.png", 120, 0, 40, 10, 0, 0⟩, ⟨"b", "b.png", 50, 0, 80, 10, 3, 30⟩]).2.1
      (by decide)⟩

theorem GetTile_default (load : String → Int × Int)
    (subOk : Int → Int → Int → Int → Bool) (tiles : List TileConfig)
    (hsub : ∀ x y w h, subOk x y w h = true) :
    GetTile subOk (CreateResourceManager load subOk tiles) DEFAULT_TILE_NAME =
      .ok (some ⟨⟨wrap (tiles.map (sanitizedW load)).sum, 0, 128, 128⟩, 0, 0⟩) := by
  rw [GetTile_eq, find_default]
  simp only [createSubBitmap, hsub, if_true]

/-- C4: whatever the caller's tile list (one that already holds a spec with the
reserved name included), when sub-bitmap creation succeeds
`GetTile(DEFAULT_TILE_NAME)` on the built manager finds a tile whose region has
positive width and height (128 x 128, with draw offset 0), and `GetDefaultTile`
returns that tile instead of panicking. -/
theorem default_tile_found (load : String → Int × Int)
    (subOk : Int → Int → Int → Int → Bool) (tiles : List TileConfig)
    (hsub : ∀ x y w h, subOk x y w h = true) :
    ∃ b, GetTile subOk (CreateResourceManager load subOk tiles) DEFAULT_TILE_NAME =
        .ok (some b) ∧
      0 < b.Raw.w ∧ 0 < b.Raw.h ∧ b.Raw.w = 128 ∧ b.Raw.h = 128 ∧ b.OffX = 0 ∧ b.OffY = 0 ∧
      GetDefaultTile subOk (CreateResourceManager load subOk tiles) = .ok b := by
  have hg := GetTile_default load subOk tiles hsub
  refine ⟨_, hg, by simp, by simp, rfl, rfl, rfl, rfl, ?_⟩
  unfold GetDefaultTile
  rw [hg]

/-- C4 at a caller list that already holds a spec with the reserved name. -/
theorem default_tile_found_witness :
    (∀ x y w h : Int, (fun _ _ _ _ => true : Int → Int → Int → Int → Bool) x y w h = true) ∧
    ∃ b, GetTile (fun _ _ _ _ => true)
        (CreateResourceManager (fun _ => (100, 50)) (fun _ _ _ _ => true)
          [⟨DEFAULT_TILE_NAME, "d.png", 10, 10, 20, 20, 5, 5⟩, ⟨"a", "a.png", 0, 0, 0, 0, 0, 0⟩])
        DEFAULT_TILE_NAME = .ok (some b) ∧
      0 < b.Raw.w ∧ 0 < b.Raw.h ∧ b.Raw.w = 128 ∧ b.Raw.h = 128 ∧ b.OffX = 0 ∧ b.OffY = 0 ∧
      GetDefaultTile (fun _ _ _ _ => true)
        (CreateResourceManager (fun _ => (100, 50)) (fun _ _ _ _ => true)
          [⟨DEFAULT_TILE_NAME, "d.png", 10, 10, 20, 20, 5, 5⟩, ⟨"a", "a.png", 0, 0, 0, 0, 0, 0⟩])
        = .ok b :=
  ⟨fun _ _ _ _ => rfl,
    default_tile_found (fun _ => (100, 50)) (fun _ _ _ _ => true)
      [⟨DEFAULT_TILE_NAME, "d.png", 10, 10, 20, 20, 5, 5⟩, ⟨"a", "a.png", 0, 0, 0, 0, 0, 0⟩]
      (fun _ _ _ _ => rfl)⟩

/-- On a built manager, when every sub-bitmap creation succeeds,
`GetTileOrDefault` does not fail: for a name absent from the caller's tile list
it returns the very tile `GetDefaultTile` returns (same region, same draw
offset), and for a name present in the list it returns the tile `GetTile`
finds. -/
theorem GetTileOrDefault_total (load : String → Int × Int)
    (subOk : Int → Int → Int → Int → Bool) (tiles : List TileConfig) (name : String)
    (hsub : ∀ x y w h, subOk x y w h = true) :
    ((∀ c ∈ tiles, c.Name ≠ name) →
      ∃ b, GetDefaultTile subOk (CreateResourceManager load subOk tiles) = .ok b ∧
        GetTileOrDefault subOk (CreateResourceManager load subOk tiles) name = .ok b) ∧
    ((∃ c ∈ tiles, c.Name = name) →
      ∃ b, GetTile subOk (CreateResourceManager load subOk tiles) name = .ok (some b) ∧
        GetTileOrDefault subOk (CreateResourceManager load subOk tiles) name = .ok b) := by
  have hd := GetTile_default load subOk tiles hsub
  have hdef : GetDefaultTile subOk (CreateResourceManager load subOk tiles) =
      .ok ⟨⟨wrap (tiles.map (sanitizedW load)).sum, 0, 128, 128⟩, 0, 0⟩ := by
    unfold GetDefaultTile
    rw [hd]
  constructor
  · intro habs
    refine ⟨_, hdef, ?_⟩
    by_cases hne : name = DEFAULT_TILE_NAME
    · unfold GetTileOrDefault
      rw [hne, hd]
    · unfold GetTileOrDefault
      rw [GetTile_eq, find_absent load subOk tiles name habs hne]
      exact hdef
  · intro hpres
    obtain ⟨v, hv⟩ := find_present load subOk tiles name hpres
    have hg : GetTile subOk (CreateResourceManager load subOk tiles) name =
        .ok (some ⟨⟨v.x, v.y, v.w, v.h⟩, v.offx, v.offy⟩) := by
      rw [GetTile_eq, hv]
      simp only [createSubBitmap, hsub, if_true]
    refine ⟨_, hg, ?_⟩
    unfold GetTileOrDefault
    rw [hg]

/-- C5: `GetTileOrDefault` can fail.  On the manager built from the tiles `a` and
`b` (100 x 50 bitmaps), when `CreateSubBitmap` returns nil for the region of the
default tile (at `x = 150` in the atlas), `GetTile` does not find the absent
name `zz`, `GetDefaultTile` panics and so does `GetTileOrDefault("zz")`; when it
returns nil for the region of tile `b` (at `x = 100`), `GetTile("b")` reports
not found and `GetTileOrDefault("b")` returns the default tile. -/
theorem GetTileOrDefault_panics :
    (∀ c ∈ [(⟨"a", "a.png", 120, 0, 40, 10, 0, 0⟩ : TileConfig),
        ⟨"b", "b.png", 50, 0, 80, 10, 3, 30⟩], c.Name ≠ "zz") ∧
    GetTile (fun x _ _ _ => decide (x ≠ 150))
      (CreateResourceManager (fun _ => (100, 50)) (fun x _ _ _ => decide (x ≠ 150))
        [⟨"a", "a.png", 120, 0, 40, 10, 0, 0⟩, ⟨"b", "b.png", 50, 0, 80, 10, 3, 30⟩]) "zz"
      = .ok none ∧
    GetDefaultTile (fun x _ _ _ => decide (x ≠ 150))
      (CreateResourceManager (fun _ => (100, 50)) (fun x _ _ _ => decide (x ≠ 150))
        [⟨"a", "a.png", 120, 0, 40, 10, 0, 0⟩, ⟨"b", "b.png", 50, 0, 80, 10, 3, 30⟩])
      = .error .defaultTileMissing ∧
    GetTileOrDefault (fun x _ _ _ => decide (x ≠ 150))
      (CreateResourceManager (fun _ => (100, 50)) (fun x _ _ _ => decide (x ≠ 150))
        [⟨"a", "a.png", 120, 0, 40, 10, 0, 0⟩, ⟨"b", "b.png", 50, 0, 80, 10, 3, 30⟩]) "zz"
      = .error .defaultTileMissing ∧
    GetTile (fun x _ _ _ => decide (x ≠ 100))
      (CreateResourceManager (fun _ => (100, 50)) (fun x _ _ _ => decide (x ≠ 100))
        [⟨"a", "a.png", 120, 0, 40, 10, 0, 0⟩, ⟨"b", "b.png", 50, 0, 80, 10, 3, 30⟩]) "b"
      = .ok none ∧
    GetTileOrDefault (fun x _ _ _ => decide (x ≠ 100))
      (CreateResourceManager (fun _ => (100, 50)) (fun x _ _ _ => decide (x ≠ 100))
        [⟨"a", "a.png", 120, 0, 40, 10, 0, 0⟩, ⟨"b", "b.png", 50, 0, 80, 10, 3, 30⟩]) "b"
      = .ok ⟨⟨150, 0, 128, 128⟩, 0, 0⟩ :=
  ⟨by decide, by rfl, by rfl, by rfl, by rfl, by rfl⟩

end resources

/-! ## Looking tiles up by name -/

namespace resources

theorem tilePositions_eq (load : String → Int × Int) (subOk : Int → Int → Int → Int → Bool)
    (tiles : List TileConfig) :
    (CreateResourceManager load subOk tiles).tilePositions =
      (CreateResourceManager load subOk tiles).tileMetadatas.reverse.map
        (fun v => (v.name, v.index)) := by
  show (populate subOk _ ([], [])).1 = _
  rw [populate_eq]
  simp only [List.append_nil]
  rfl

theorem find_registered (load : String → Int × Int) (subOk : Int → Int → Int → Int → Bool)
    (tiles : List TileConfig) (name : String)
    (hreg : name = DEFAULT_TILE_NAME ∨ ∃ c ∈ tiles, c.Name = name) :
    ∃ v, (CreateResourceManager load subOk tiles).tileMetadatas.reverse.find?
        (fun v => name == v.name) = some v := by
  rcases hreg with h | h
  · rw [h]
    exact ⟨_, find_default load subOk tiles⟩
  · exact find_present load subOk tiles name h

/-- C11, as stated, fails.  On the manager built from the tiles `a` and `b`, when
`CreateSubBitmap` returns nil, `GetTile("b")` reports `found = false` although
`b` is a registered name. -/
theorem GetTile_registered_not_found :
    (∃ c ∈ [(⟨"a", "a.png", 120, 0, 40, 10, 0, 0⟩ : TileConfig),
        ⟨"b", "b.png", 50, 0, 80, 10, 3, 30⟩], c.Name = "b") ∧
    GetTile (fun _ _ _ _ => false)
      (CreateResourceManager (fun _ => (100, 50)) (fun _ _ _ _ => false)
        [⟨"a", "a.png", 120, 0, 40, 10, 0, 0⟩, ⟨"b", "b.png", 50, 0, 80, 10, 3, 30⟩]) "b"
      = .ok none :=
  ⟨by decide, by rfl⟩

/-- C11, amended: on a built manager `GetTile(name)` reports `found = false`,
with no tile and no default substituted, for every name that is neither a tile
name of the config nor the reserved default name; for every registered name the
position map records a metadata entry carrying that name, and `GetTile` reports
`found = true` with the draw offset and the atlas rectangle of that entry when
the sub-bitmap of its rectangle was created, and `found = false` when
`CreateSubBitmap` returned nil for it. -/
theorem GetTile_found (load : String → Int × Int)
    (subOk : Int → Int → Int → Int → Bool) (tiles : List TileConfig) (name : String) :
    ((∀ c ∈ tiles, c.Name ≠ name) → name ≠ DEFAULT_TILE_NAME →
      GetTile subOk (CreateResourceManager load subOk tiles) name = .ok none) ∧
    ((name = DEFAULT_TILE_NAME ∨ ∃ c ∈ tiles, c.Name = name) →
      ∃ pos md,
        (CreateResourceManager load subOk tiles).tilePositions.lookup name = some pos ∧
        (CreateResourceManager load subOk tiles).tileMetadatas[pos]? = some md ∧
        md.name = name ∧
        (subOk md.x md.y md.w md.h = true →
          GetTile subOk (CreateResourceManager load subOk tiles) name =
            .ok (some ⟨⟨md.x, md.y, md.w, md.h⟩, md.offx, md.offy⟩)) ∧
        (subOk md.x md.y md.w md.h = false →
          GetTile subOk (CreateResourceManager load subOk tiles) name = .ok none)) := by
  constructor
  · intro habs hne
    rw [GetTile_eq, find_absent load subOk tiles name habs hne]
  · intro hreg
    obtain ⟨v, hv⟩ := find_registered load subOk tiles name hreg
    have hmem : v ∈ (CreateResourceManager load subOk tiles).tileMetadatas :=
      List.mem_reverse.1 (List.mem_of_find?_eq_some hv)
    have hname : v.name = name := by
      have := List.find?_some hv
      simp only [beq_iff_eq] at this
      exact this.symm
    refine ⟨v.index, v, ?_, tileMetadatas_getElem_index load subOk tiles v hmem, hname, ?_, ?_⟩
    · rw [tilePositions_eq, lookup_map_name, hv]
      rfl
    · intro hsub
      rw [GetTile_eq, hv]
      simp only [createSubBitmap, hsub, if_true]
    · intro hsub
      rw [GetTile_eq, hv]
      simp [createSubBitmap, hsub]

/-- The amended C11 at a two-tile list on which sub-bitmap creation succeeds:
the unknown name `zz` is not found, the registered name `b` is found with the
rectangle and offset of its metadata entry. -/
theorem GetTile_found_witness :
    (∀ c ∈ [(⟨"a", "a.png", 120, 0, 40, 10, 0, 0⟩ : TileConfig),
        ⟨"b", "b.png", 50, 0, 80, 10, 3, 30⟩], c.Name ≠ "zz") ∧
    "zz" ≠ DEFAULT_TILE_NAME ∧
    GetTile (fun _ _ _ _ => true)
      (CreateResourceManager (fun _ => (100, 50)) (fun _ _ _ _ => true)
        [⟨"a", "a.png", 120, 0, 40, 10, 0, 0⟩, ⟨"b", "b.png", 50, 0, 80, 10, 3, 30⟩]) "zz"
      = .ok none ∧
    ("b" = DEFAULT_TILE_NAME ∨
      ∃ c ∈ [(⟨"a", "a.png", 120, 0, 40, 10, 0, 0⟩ : TileConfig),
        ⟨"b", "b.png", 50, 0, 80, 10, 3, 30⟩], c.Name = "b") ∧
    ∃ pos md,
      (CreateResourceManager (fun _ => (100, 50)) (fun _ _ _ _ => true)
        [⟨"a", "a.png", 120, 0, 40, 10, 0, 0⟩,
          ⟨"b", "b.png", 50, 0, 80, 10, 3, 30⟩]).tilePositions.lookup "b" = some pos ∧
      (CreateResourceManager (fun _ => (100, 50)) (fun _ _ _ _ => true)
        [⟨"a", "a.png", 120, 0, 40, 10, 0, 0⟩,
          ⟨"b", "b.png", 50, 0, 80, 10, 3, 30⟩]).tileMetadatas[pos]? = some md ∧
      md.name = "b" ∧
      ((fun _ _ _ _ => true : Int → Int → Int → Int → Bool) md.x md.y md.w md.h = true →
        GetTile (fun _ _ _ _ => true)
          (CreateResourceManager (fun _ => (100, 50)) (fun _ _ _ _ => true)
            [⟨"a", "a.png", 120, 0, 40, 10, 0, 0⟩, ⟨"b", "b.png", 50, 0, 80, 10, 3, 30⟩]) "b"
          = .ok (some ⟨⟨md.x, md.y, md.w, md.h⟩, md.offx, md.offy⟩)) ∧
      ((fun _ _ _ _ => true : Int → Int → Int → Int → Bool) md.x md.y md.w md.h = false →
        GetTile (fun _ _ _ _ => true)
          (CreateResourceManager (fun _ => (100, 50)) (fun _ _ _ _ => true)
            [⟨"a", "a.png", 120, 0, 40, 10, 0, 0⟩, ⟨"b", "b.png", 50, 0, 80, 10, 3, 30⟩]) "b"
          = .ok none) :=
  ⟨by decide, by decide,
    (GetTile_found (fun _ => (100, 50)) (fun _ _ _ _ => true)
      [⟨"a", "a.png", 120, 0, 40, 10, 0, 0⟩, ⟨"b", "b.png", 50, 0, 80, 10, 3, 30⟩] "zz").1
      (by decide) (by decide),
    Or.inr (by decide),
    (GetTile_found (fun _ => (100, 50)) (fun _ _ _ _ => true)
      [⟨"a", "a.png", 120, 0, 40, 10, 0, 0⟩, ⟨"b", "b.png", 50, 0, 80, 10, 3, 30⟩] "b").2
      (Or.inr (by decide))⟩

theorem tileMetadata_eq_of_fields (a b : tileMetadata) (hi : a.index = b.index)
    (hx : a.x = b.x) (hy : a.y = b.y) (hw : a.w = b.w) (hh : a.h = b.h)
    (hox : a.offx = b.offx) (hoy : a.offy = b.offy) (hn : a.name = b.name) : a = b := by
  cases a
  cases b
  simp only at hi hx hy hw hh hox hoy hn
  simp only [tileMetadata.mk.injEq]
  exact ⟨hi, hx, hy, hw, hh, hox, hoy, hn⟩

/-- C18: sanitising is idempotent: sanitising the sanitised crop rectangle and
draw offset of a tile spec again, against the same source bitmap, returns them
unchanged (for all integer fields and sizes, the non-negative ones included). -/
theorem sanitize_idempotent (i j : Nat) (cfg : TileConfig) (bmpw bmph : Int) :
    sanitize j
        ⟨cfg.Name, cfg.Filename, (sanitize i cfg bmpw bmph).x, (sanitize i cfg bmpw bmph).y,
          (sanitize i cfg bmpw bmph).w, (sanitize i cfg bmpw bmph).h,
          (sanitize i cfg bmpw bmph).offx, (sanitize i cfg bmpw bmph).offy⟩ bmpw bmph =
      { sanitize i cfg bmpw bmph with index := j } := by
  have hW : (sanitize j
        ⟨cfg.Name, cfg.Filename, (sanitize i cfg bmpw bmph).x, (sanitize i cfg bmpw bmph).y,
          (sanitize i cfg bmpw bmph).w, (sanitize i cfg bmpw bmph).h,
          (sanitize i cfg bmpw bmph).offx, (sanitize i cfg bmpw bmph).offy⟩ bmpw bmph).w =
      (sanitize i cfg bmpw bmph).w := by
    rw [sanitize_w j]
    simp only
    rw [sanitize_x, sanitize_w]
    unfold wrap
    split_ifs <;> omega
  have hH : (sanitize j
        ⟨cfg.Name, cfg.Filename, (sanitize i cfg bmpw bmph).x, (sanitize i cfg bmpw bmph).y,
          (sanitize i cfg bmpw bmph).w, (sanitize i cfg bmpw bmph).h,
          (sanitize i cfg bmpw bmph).offx, (sanitize i cfg bmpw bmph).offy⟩ bmpw bmph).h =
      (sanitize i cfg bmpw bmph).h := by
    rw [sanitize_h j]
    simp only
    rw [sanitize_y, sanitize_h]
    unfold wrap
    split_ifs <;> omega
  apply tileMetadata_eq_of_fields
  · rfl
  · rw [sanitize_x j]
    simp only
    rw [sanitize_x]
    split_ifs <;> omega
  · rw [sanitize_y j]
    simp only
    rw [sanitize_y]
    split_ifs <;> omega
  · exact hW
  · exact hH
  · rw [sanitize_offx j, hW]
    simp only
    rw [sanitize_offx i]
    split_ifs <;> omega
  · rw [sanitize_offy j, hH]
    simp only
    rw [sanitize_offy i]
    split_ifs <;> omega
  · rfl

end resources

/-! ## The frame buffer of `drawFrame` -/

theorem sliceSet_some {α : Type} (xs xs' : List α) (i : Int) (v : α)
    (h : sliceSet xs i v = some xs') :
    0 ≤ i ∧ i.toNat < xs.length ∧ xs' = xs.set i.toNat v := by
  unfold sliceSet at h
  split_ifs at h with h1 h2
  · simp only [Option.some.injEq] at h
    exact ⟨by omega, h2, h.symm⟩

theorem sliceGet_set_self {α : Type} (xs : List α) (i : Int) (v : α)
    (h0 : 0 ≤ i) (hlt : i.toNat < xs.length) :
    sliceGet (xs.set i.toNat v) i = some v := by
  unfold sliceGet
  rw [if_neg (by omega)]
  simp [List.getElem?_set_self, hlt]

theorem sliceGet_set_ne {α : Type} (xs : List α) (i j : Int) (v : α)
    (h0 : 0 ≤ i) (hne : i ≠ j) :
    sliceGet (xs.set i.toNat v) j = sliceGet xs j := by
  unfold sliceGet
  split_ifs with hj
  · rfl
  · rw [List.getElem?_set_ne]
    omega

namespace display

theorem fetchTiles_cons_ok (cfg : DisplayConfig) (getTile : Int → Int → List Sprite)
    (it : Int × Int) (rest : List (Int × Int)) (toDraw : List (List Sprite)) (dp : Nat)
    (res : List (List Sprite) × Nat)
    (h : fetchTiles cfg getTile (it :: rest) toDraw dp = .ok res) :
    0 ≤ it.1 * cfg.MapW + it.2 ∧ (it.1 * cfg.MapW + it.2).toNat < toDraw.length ∧
    ∃ dp', fetchTiles cfg getTile rest
      (toDraw.set (it.1 * cfg.MapW + it.2).toNat (getTile it.1 it.2)) dp' = .ok res := by
  obtain ⟨x, y⟩ := it
  simp only [fetchTiles] at h
  split at h
  · simp at h
  · rename_i toDraw' hset
    obtain ⟨h0, hlt, rfl⟩ := sliceSet_some _ _ _ _ hset
    split at h
    · simp at h
    · exact ⟨h0, hlt, _, h⟩

theorem fetchTiles_length (cfg : DisplayConfig) (getTile : Int → Int → List Sprite)
    (its : List (Int × Int)) (toDraw : List (List Sprite)) (dp : Nat)
    (res : List (List Sprite) × Nat)
    (h : fetchTiles cfg getTile its toDraw dp = .ok res) :
    res.1.length = toDraw.length := by
  induction its generalizing toDraw dp with
  | nil =>
    simp only [fetchTiles, Except.ok.injEq] at h
    rw [← h]
  | cons it rest ih =>
    obtain ⟨_, _, dp', h'⟩ := fetchTiles_cons_ok cfg getTile it rest toDraw dp res h
    rw [ih _ _ h', List.length_set]

theorem fetchTiles_index_lt (cfg : DisplayConfig) (getTile : Int → Int → List Sprite)
    (its : List (Int × Int)) (toDraw : List (List Sprite)) (dp : Nat)
    (res : List (List Sprite) × Nat)
    (h : fetchTiles cfg getTile its toDraw dp = .ok res) :
    ∀ it ∈ its, 0 ≤ it.1 * cfg.MapW + it.2 ∧
      (it.1 * cfg.MapW + it.2).toNat < toDraw.length := by
  induction its generalizing toDraw dp with
  | nil => simp
  | cons it rest ih =>
    obtain ⟨h0, hlt, dp', h'⟩ := fetchTiles_cons_ok cfg getTile it rest toDraw dp res h
    intro a ha
    rcases List.mem_cons.1 ha with rfl | ha
    · exact ⟨h0, hlt⟩
    · have := ih _ _ h' a ha
      rw [List.length_set] at this
      exact this

theorem fetchTiles_untouched (cfg : DisplayConfig) (getTile : Int → Int → List Sprite)
    (its : List (Int × Int)) (toDraw : List (List Sprite)) (dp : Nat)
    (res : List (List Sprite) × Nat) (i : Int)
    (h : fetchTiles cfg getTile its toDraw dp = .ok res)
    (hne : ∀ it ∈ its, it.1 * cfg.MapW + it.2 ≠ i) :
    sliceGet res.1 i = sliceGet toDraw i := by
  induction its generalizing toDraw dp with
  | nil =>
    simp only [fetchTiles, Except.ok.injEq] at h
    rw [← h]
  | cons it rest ih =>
    obtain ⟨h0, _, dp', h'⟩ := fetchTiles_cons_ok cfg getTile it rest toDraw dp res h
    rw [ih _ _ h' (fun a ha => hne a (List.mem_cons_of_mem _ ha))]
    exact sliceGet_set_ne _ _ _ _ h0 (hne it (List.mem_cons_self _ _))

/-- After the fetch loops a slot holds the stack of the last iteration that
wrote to it. -/
theorem fetchTiles_last (cfg : DisplayConfig) (getTile : Int → Int → List Sprite)
    (its : List (Int × Int)) (toDraw : List (List Sprite)) (dp : Nat)
    (res : List (List Sprite) × Nat)
    (h : fetchTiles cfg getTile its toDraw dp = .ok res)
    (hord : its.Pairwise iterLt) (it : Int × Int) (hit : it ∈ its)
    (hlast : ∀ a ∈ its, a.1 * cfg.MapW + a.2 = it.1 * cfg.MapW + it.2 → ¬ iterLt it a) :
    sliceGet res.1 (it.1 * cfg.MapW + it.2) = some (getTile it.1 it.2) := by
  induction its generalizing toDraw dp with
  | nil => simp at hit
  | cons b rest ih =>
    obtain ⟨h0, hlt, dp', h'⟩ := fetchTiles_cons_ok cfg getTile b rest toDraw dp res h
    rw [List.pairwise_cons] at hord
    by_cases hmem : it ∈ rest
    · exact ih _ _ h' hord.2 hmem (fun a ha => hlast a (List.mem_cons_of_mem _ ha))
    · have hb : it = b := by
        rcases List.mem_cons.1 hit with hb | hb
        · exact hb
        · exact absurd hb hmem
      subst hb
      rw [fetchTiles_untouched cfg getTile rest _ dp' res _ h']
      · exact sliceGet_set_self _ _ _ h0 hlt
      · intro a ha heq
        exact hlast a (List.mem_cons_of_mem _ ha) heq (hord.1 a ha)

theorem mem_fetchIters (cfg : DisplayConfig) (x y : Int) :
    (x, y) ∈ fetchIters cfg ↔ inGrid cfg x y := by
  unfold fetchIters inGrid
  simp only [List.mem_flatMap, List.mem_range, List.mem_map, Prod.mk.injEq]
  constructor
  · rintro ⟨a, ha, b, hb, rfl, rfl⟩
    omega
  · rintro ⟨h0, h1, h2, h3⟩
    exact ⟨x.toNat, by omega, y.toNat, by omega, by omega, by omega⟩

theorem fetchIters_pairwise (cfg : DisplayConfig) :
    (fetchIters cfg).Pairwise iterLt := by
  unfold fetchIters
  rw [List.pairwise_flatMap]
  constructor
  · intro s _
    rw [List.pairwise_map]
    refine (List.pairwise_lt_range _).imp ?_
    intro a b hab
    right
    exact ⟨rfl, by simpa using hab⟩
  · refine (List.pairwise_lt_range _).imp ?_
    intro a b hab x hx y hy
    simp only [List.mem_map] at hx hy
    obtain ⟨_, _, rfl⟩ := hx
    obtain ⟨_, _, rfl⟩ := hy
    left
    simpa using hab

theorem sliceGet_some_lt {α : Type} (xs : List α) (i : Int) (v : α)
    (h : sliceGet xs i = some v) : 0 ≤ i ∧ i.toNat < xs.length := by
  unfold sliceGet at h
  split_ifs at h with h1
  exact ⟨by omega, (List.getElem?_eq_some_iff.1 h).1⟩

/-- After a fetch that did not panic, the slot read for a cell that passes the
bounds check of the sweep holds the stack `GetTile` returned for that cell. -/
theorem fetched_slot (cfg : DisplayConfig) (getTile : Int → Int → List Sprite)
    (res : List (List Sprite) × Nat)
    (hf : fetchTiles cfg getTile (fetchIters cfg)
      (List.replicate (cfg.MapW * cfg.MapH).toNat []) 0 = .ok res)
    (x y : Int) (hx0 : 0 ≤ x) (hx : x < cfg.MapW) (hy0 : 0 ≤ y) (hy : y < cfg.MapW)
    (stack : List Sprite) (hs : sliceGet res.1 (x * cfg.MapW + y) = some stack) :
    stack = getTile x y := by
  have hlen : res.1.length = (cfg.MapW * cfg.MapH).toNat := by
    rw [fetchTiles_length cfg getTile _ _ _ res hf, List.length_replicate]
  obtain ⟨hi0, hilt⟩ := sliceGet_some_lt _ _ _ hs
  rw [hlen] at hilt
  have hWpos : 0 < cfg.MapW := by omega
  have hHpos : 0 < cfg.MapH := by
    by_contra hneg
    have : cfg.MapW * cfg.MapH ≤ 0 :=
      Int.mul_nonpos_of_nonneg_of_nonpos (le_of_lt hWpos) (by omega)
    omega
  by_cases hyH : y < cfg.MapH
  · have hmem : (x, y) ∈ fetchIters cfg := (mem_fetchIters cfg x y).2 ⟨hx0, hx, hy0, hyH⟩
    have hlast := fetchTiles_last cfg getTile _ _ _ res hf (fetchIters_pairwise cfg) (x, y) hmem
      (by
        rintro ⟨a, b⟩ hab heq hlt
        obtain ⟨ha0, ha, hb0, hb⟩ := (mem_fetchIters cfg a b).1 hab
        simp only at heq
        unfold iterLt at hlt
        simp only at hlt
        rcases hlt with hlt | ⟨rfl, hlt⟩
        · have h1 : 0 ≤ (a - x - 1) * cfg.MapW :=
            Int.mul_nonneg (by omega) (le_of_lt hWpos)
          have h2 : (a - x - 1) * cfg.MapW = a * cfg.MapW - x * cfg.MapW - cfg.MapW := by ring
          omega
        · omega)
    simp only at hlast
    rw [hlast] at hs
    exact (Option.some.inj hs).symm
  · exfalso
    have hmem : (cfg.MapH, (0 : Int)) ∈ fetchIters cfg :=
      (mem_fetchIters cfg _ _).2 ⟨le_of_lt hHpos, by omega, le_refl _, hHpos⟩
    have := (fetchTiles_index_lt cfg getTile _ _ _ res hf _ hmem).2
    rw [List.length_replicate] at this
    simp only at this
    have hcomm : cfg.MapH * cfg.MapW = cfg.MapW * cfg.MapH := Int.mul_comm _ _
    omega

theorem drawCell_some_spec (cfg : DisplayConfig) (toDraw : List (List Sprite))
    (vp : Viewport) (p : Nat) (it : Int × Int) (c : DrawCall)
    (h : drawCell cfg toDraw vp p it = .ok (some c)) :
    ∃ stack, sliceGet toDraw (c.x * cfg.MapW + c.y) = some stack ∧
      stack[p]? = some c.bmp ∧
      c.sx = float32OfInt (wrap ((wrap ((c.y - c.x) * cfg.TileW)).tdiv 2 - vp.X)) ∧
      c.sy = float32OfInt (wrap ((wrap ((c.x + c.y) * cfg.TileH)).tdiv 2 - vp.Y)) := by
  unfold drawCell at h
  simp only at h
  split at h
  · simp at h
  · split at h
    · simp at h
    · rename_i stack hs
      split at h
      · simp at h
      · split at h
        · simp at h
        · rename_i bmp hb
          simp only [Except.ok.injEq, Option.some.injEq] at h
          subst h
          exact ⟨stack, hs, hb, rfl, rfl⟩

theorem runCells_mem (body : Int × Int → Except Panic (Option DrawCall))
    (its : List (Int × Int)) (c : DrawCall) (h : c ∈ (runCells body its).1) :
    ∃ it ∈ its, body it = .ok (some c) := by
  induction its with
  | nil => simp [runCells] at h
  | cons it rest ih =>
    unfold runCells at h
    cases hb : body it with
    | error e => simp [hb] at h
    | ok r =>
      simp only [hb, List.mem_append] at h
      rcases h with h | h
      · cases r with
        | none => simp at h
        | some d =>
          simp only [Option.toList, List.mem_singleton] at h
          exact ⟨it, List.mem_cons_self _ _, by rw [hb, h]⟩
      · obtain ⟨a, ha, hab⟩ := ih h
        exact ⟨a, List.mem_cons_of_mem _ ha, hab⟩

theorem runPasses_getElem (cfg : DisplayConfig) (toDraw : List (List Sprite))
    (vps : Nat → Viewport) (ps : List Nat) (k : Nat) (pass : List DrawCall)
    (h : (runPasses cfg toDraw vps ps).1[k]? = some pass) :
    ∃ p, ps[k]? = some p ∧
      pass = (runCells (drawCell cfg toDraw (vps p) p) (sweepIters cfg)).1 := by
  induction ps generalizing k with
  | nil => simp [runPasses] at h
  | cons p rest ih =>
    unfold runPasses at h
    split at h
    · rename_i calls e heq
      cases k with
      | zero =>
        simp only [List.getElem?_cons_zero, Option.some.injEq] at h
        exact ⟨p, List.getElem?_cons_zero, by rw [← h, heq]⟩
      | succ k => simp at h
    · rename_i calls heq
      cases k with
      | zero =>
        simp only [List.getElem?_cons_zero, Option.some.injEq] at h
        exact ⟨p, List.getElem?_cons_zero, by rw [← h, heq]⟩
      | succ k =>
        simp only [List.getElem?_cons_succ] at h
        obtain ⟨q, hq, hq'⟩ := ih k h
        exact ⟨q, by simpa using hq, hq'⟩

/-- C12, as stated, fails.  With `TileH = 2^62` the product `(x + y) * TileH` of
cell `(1, 1)` wraps around and the cell is drawn at `sy = -2^62`, not at
`2^62`; with the viewport at `X = -16777217` the position `sx = 16777249` of
cell `(0, 1)` is not a float32 and `Draw` receives 16777248. -/
theorem drawFrame_position_inexact :
    (drawFrame ⟨2, 2, 64, 4611686018427387904⟩ (fun _ _ => [7])
        (fun _ => ⟨0, 0, 600, 400⟩)).passes[0]? =
      some [⟨0, 1, 7, 32, 2305843009213693952⟩, ⟨1, 1, 7, 0, -4611686018427387904⟩] ∧
    (-4611686018427387904 : Int) ≠ ((1 + 1) * 4611686018427387904 : Int).tdiv 2 - 0 ∧
    (drawFrame ⟨2, 2, 64, 32⟩ (fun _ _ => [7])
        (fun _ => ⟨-16777217, 0, 600, 400⟩)).passes[0]? =
      some [⟨0, 1, 7, 16777248, 16⟩, ⟨1, 1, 7, 16777216, 32⟩] ∧
    (16777248 : Int) ≠ ((1 - 0) * 64 : Int).tdiv 2 - (-16777217) :=
  ⟨by rfl, by decide, by rfl, by decide⟩

/-- C12, amended: every draw call that `drawFrame` issues in pass `p` for a cell
`(x, y)` draws the `p`-th sprite of the stack `GetTile(x, y)` returned for that
cell, with the arguments `float32(sx)` and `float32(sy)`, where
`sx = px - viewport.X`, `sy = py - viewport.Y`, `px = (y - x) * TileW / 2` and
`py = (x + y) * TileH / 2` are computed in the wrap-around arithmetic of the
64-bit `int` and `viewport` is the snapshot in force for pass `p`.  A coordinate
is exactly `px - viewport.X` (`py - viewport.Y`) when the product does not
overflow and the coordinate has a magnitude below `2^24`. -/
theorem drawFrame_draw_calls (cfg : DisplayConfig) (getTile : Int → Int → List Sprite)
    (vps : Nat → Viewport) (p : Nat) (pass : List DrawCall) (c : DrawCall)
    (hp : (drawFrame cfg getTile vps).passes[p]? = some pass) (hc : c ∈ pass) :
    (getTile c.x c.y)[p]? = some c.bmp ∧
    c.sx = float32OfInt (wrap ((wrap ((c.y - c.x) * cfg.TileW)).tdiv 2 - (vps p).X)) ∧
    c.sy = float32OfInt (wrap ((wrap ((c.x + c.y) * cfg.TileH)).tdiv 2 - (vps p).Y)) ∧
    (isInt ((c.y - c.x) * cfg.TileW) →
      (((c.y - c.x) * cfg.TileW).tdiv 2 - (vps p).X).natAbs < 2 ^ 24 →
      c.sx = ((c.y - c.x) * cfg.TileW).tdiv 2 - (vps p).X) ∧
    (isInt ((c.x + c.y) * cfg.TileH) →
      (((c.x + c.y) * cfg.TileH).tdiv 2 - (vps p).Y).natAbs < 2 ^ 24 →
      c.sy = ((c.x + c.y) * cfg.TileH).tdiv 2 - (vps p).Y) := by
  have hexact : ∀ a b : Int, isInt a → (a.tdiv 2 - b).natAbs < 2 ^ 24 →
      float32OfInt (wrap ((wrap a).tdiv 2 - b)) = a.tdiv 2 - b := by
    intro a b ha hb
    rw [wrap_of_isInt a ha, wrap_of_isInt _ ⟨by omega, by omega⟩]
    exact float32OfInt_small _ hb
  unfold drawFrame at hp
  split at hp
  · simp at hp
  · split at hp
    · simp at hp
    · rename_i toDraw drawPasses hf
      obtain ⟨q, hq, rfl⟩ := runPasses_getElem cfg toDraw vps _ p pass hp
      have hqp : q = p := by
        obtain ⟨hlt, hget⟩ := List.getElem?_eq_some_iff.1 hq
        rw [List.getElem_range] at hget
        exact hget.symm
      subst hqp
      obtain ⟨it, hit, hbody⟩ := runCells_mem _ _ c hc
      obtain ⟨hb, hcx, hcy⟩ := drawCell_some cfg toDraw (vps q) q it c hbody
      obtain ⟨stack, hs, hbmp, hsx, hsy⟩ := drawCell_some_spec cfg toDraw (vps q) q it c hbody
      have hmem : (it.1, it.2) ∈ sweepIters cfg := hit
      obtain ⟨h0, _, _⟩ := (mem_sweepIters cfg it.1 it.2).1 hmem
      unfold outOfBounds at hb
      simp only [ge_iff_le, Bool.or_eq_false_iff, decide_eq_false_iff_not, not_le, not_lt]
        at hb
      have hst : stack = getTile c.x c.y :=
        fetched_slot cfg getTile (toDraw, drawPasses) hf c.x c.y (by omega) (by omega)
          (by omega) (by omega) stack hs
      rw [← hst]
      refine ⟨hbmp, hsx, hsy, ?_, ?_⟩
      · intro h1 h2
        rw [hsx]
        exact hexact _ _ h1 h2
      · intro h1 h2
        rw [hsy]
        exact hexact _ _ h1 h2

/-- The amended C12 at pass 0 of a 2 x 2 grid with one sprite per cell and the
viewport at `(10, 20)`: the draw call of cell `(0, 1)`. -/
theorem drawFrame_draw_calls_witness :
    (drawFrame ⟨2, 2, 64, 32⟩ (fun _ _ => [7]) (fun _ => ⟨10, 20, 600, 400⟩)).passes[0]? =
      some [⟨0, 1, 7, 22, -4⟩, ⟨1, 1, 7, -10, 12⟩] ∧
    (⟨0, 1, 7, 22, -4⟩ : DrawCall) ∈ [(⟨0, 1, 7, 22, -4⟩ : DrawCall), ⟨1, 1, 7, -10, 12⟩] ∧
    isInt ((1 - 0) * 64) ∧ (((1 - 0) * 64 : Int).tdiv 2 - 10).natAbs < 2 ^ 24 ∧
    isInt ((0 + 1) * 32) ∧ (((0 + 1) * 32 : Int).tdiv 2 - 20).natAbs < 2 ^ 24 ∧
    ([7] : List Sprite)[0]? = some 7 ∧
    (22 : Int) = ((1 - 0) * 64 : Int).tdiv 2 - 10 ∧
    (-4 : Int) = ((0 + 1) * 32 : Int).tdiv 2 - 20 :=
  ⟨by rfl, by decide, by decide, by decide, by decide, by decide,
    (drawFrame_draw_calls ⟨2, 2, 64, 32⟩ (fun _ _ => [7]) (fun _ => ⟨10, 20, 600, 400⟩) 0
      [⟨0, 1, 7, 22, -4⟩, ⟨1, 1, 7, -10, 12⟩] ⟨0, 1, 7, 22, -4⟩ (by rfl) (by decide)).1,
    (drawFrame_draw_calls ⟨2, 2, 64, 32⟩ (fun _ _ => [7]) (fun _ => ⟨10, 20, 600, 400⟩) 0
      [⟨0, 1, 7, 22, -4⟩, ⟨1, 1, 7, -10, 12⟩] ⟨0, 1, 7, 22, -4⟩ (by rfl) (by decide)).2.2.2.1
      (by decide) (by decide),
    (drawFrame_draw_calls ⟨2, 2, 64, 32⟩ (fun _ _ => [7]) (fun _ => ⟨10, 20, 600, 400⟩) 0
      [⟨0, 1, 7, 22, -4⟩, ⟨1, 1, 7, -10, 12⟩] ⟨0, 1, 7, 22, -4⟩ (by rfl) (by decide)).2.2.2.2
      (by decide) (by decide)⟩

/-- On a square grid the slot index `x * MapW + y` lies within the frame buffer
and distinct cells have distinct slots. -/
theorem slot_square (cfg : DisplayConfig) (hsq : cfg.MapW = cfg.MapH) (x y : Int)
    (hc : inGrid cfg x y) :
    (0 ≤ x * cfg.MapW + y ∧ x * cfg.MapW + y < cfg.MapW * cfg.MapH) ∧
    ∀ a b, inGrid cfg a b → a * cfg.MapW + b = x * cfg.MapW + y → a = x ∧ b = y := by
  obtain ⟨hx0, hx, hy0, hy⟩ := hc
  rw [← hsq] at hy
  have hW : 0 < cfg.MapW := by omega
  constructor
  · rw [← hsq]
    have h1 : 0 ≤ x * cfg.MapW := Int.mul_nonneg hx0 (le_of_lt hW)
    have h2 : 0 ≤ (cfg.MapW - 1 - x) * cfg.MapW := Int.mul_nonneg (by omega) (le_of_lt hW)
    have h3 : (cfg.MapW - 1 - x) * cfg.MapW =
        cfg.MapW * cfg.MapW - cfg.MapW - x * cfg.MapW := by ring
    constructor <;> omega
  · rintro a b ⟨ha0, ha, hb0, hb⟩ heq
    rw [← hsq] at hb
    have hax : a = x := by
      rcases lt_trichotomy a x with h | h | h
      · exfalso
        have h1 : 0 ≤ (x - a - 1) * cfg.MapW := Int.mul_nonneg (by omega) (le_of_lt hW)
        have h2 : (x - a - 1) * cfg.MapW = x * cfg.MapW - a * cfg.MapW - cfg.MapW := by ring
        omega
      · exact h
      · exfalso
        have h1 : 0 ≤ (a - x - 1) * cfg.MapW := Int.mul_nonneg (by omega) (le_of_lt hW)
        have h2 : (a - x - 1) * cfg.MapW = a * cfg.MapW - x * cfg.MapW - cfg.MapW := by ring
        omega
    subst hax
    exact ⟨rfl, by omega⟩

/-- C17: the slot index `x * MapW + y` is not an injection into the frame buffer
on non-square grids.  On a 3 x 2 grid the fetch of cell `(2, 0)` indexes slot 6
of a 6-slot buffer and `drawFrame` panics before any pass; on a 2 x 3 grid the
cells `(0, 2)` and `(1, 0)` share slot 2, which ends up holding the stack of
`(1, 0)`, and slot 5 is never written. -/
theorem slot_index_not_injective (vps : Nat → Viewport) :
    inGrid ⟨3, 2, 64, 32⟩ 2 0 ∧ ¬ ((2 : Int) * 3 + 0 < 3 * 2) ∧
    drawFrame ⟨3, 2, 64, 32⟩ (fun x y => [(10 * x + y).toNat]) vps =
      ⟨[], some .indexOutOfRange⟩ ∧
    inGrid ⟨2, 3, 64, 32⟩ 0 2 ∧ inGrid ⟨2, 3, 64, 32⟩ 1 0 ∧
    fetchTiles ⟨2, 3, 64, 32⟩ (fun x y => [(10 * x + y).toNat]) (fetchIters ⟨2, 3, 64, 32⟩)
        (List.replicate 6 []) 0 =
      .ok ([[0], [1], [10], [11], [12], []], 1) := by
  refine ⟨by decide, by decide, by rfl, by decide, by decide, by rfl⟩

end display

/-! ## The viewport, the pacing loop and the frame-in-flight gate -/

namespace display

/-- C15, as stated, fails.  With the viewport at `X = 9223372036854775807` (size
10 x 10, zoom 1, integers standing for float64) the rectangle
`(9223372036854775807, 0, 1, 1)` shares the point `(9223372036854775807, 0)`
with the zoomed viewport rectangle, but `x + w` wraps around to a negative
number and `OnScreen` returns false. -/
theorem OnScreen_overflow_hidden :
    sharesPoint (⟨id, fun a b => a * b, id⟩ : Float64Ops Int)
      ⟨⟨9223372036854775807, 0, 10, 10⟩, 1, 1⟩ 9223372036854775807 0 1 1 ∧
    OnScreen (⟨id, fun a b => a * b, id⟩ : Float64Ops Int)
      ⟨⟨9223372036854775807, 0, 10, 10⟩, 1, 1⟩ 9223372036854775807 0 1 1 = false :=
  ⟨⟨9223372036854775807, 0, by norm_num [zoomedW, zoomedH]⟩, by decide⟩

/-- C15, amended: `OnScreen` returns false exactly when one of its four tests
holds in the wrap-around arithmetic of the 64-bit `int`, and true otherwise.
When the sums `x + w`, `y + h`, `X + trunc(W * XZoom)` and `Y + trunc(H * YZoom)`
do not overflow, it returns false exactly when the rectangle lies fully left of
(`x + w < X`), fully right of (`x > X + trunc(W * XZoom)`), fully above
(`y + h < Y`) or fully below (`y > Y + trunc(H * YZoom)`) the zoomed viewport
rectangle, and a rectangle that shares a point with the zoomed viewport
rectangle is reported visible. -/
theorem OnScreen_visible {F : Type} (ops : Float64Ops F) (v : ZoomedViewport F)
    (x y w h : Int) :
    (OnScreen ops v x y w h = false ↔
      (wrap (x + w) < v.X ∨ x > wrap (v.X + ops.toInt (ops.mul (ops.ofInt v.W) v.XZoom)) ∨
        wrap (y + h) < v.Y ∨
        y > wrap (v.Y + ops.toInt (ops.mul (ops.ofInt v.H) v.YZoom)))) ∧
    (isInt (x + w) → isInt (y + h) →
      isInt (v.X + ops.toInt (ops.mul (ops.ofInt v.W) v.XZoom)) →
      isInt (v.Y + ops.toInt (ops.mul (ops.ofInt v.H) v.YZoom)) →
      (OnScreen ops v x y w h = false ↔
        (x + w < v.X ∨ x > v.X + ops.toInt (ops.mul (ops.ofInt v.W) v.XZoom) ∨
          y + h < v.Y ∨ y > v.Y + ops.toInt (ops.mul (ops.ofInt v.H) v.YZoom))) ∧
      (OnScreen ops v x y w h = true ↔
        ¬ (x + w < v.X ∨ x > v.X + ops.toInt (ops.mul (ops.ofInt v.W) v.XZoom) ∨
          y + h < v.Y ∨ y > v.Y + ops.toInt (ops.mul (ops.ofInt v.H) v.YZoom))) ∧
      (sharesPoint ops v x y w h → OnScreen ops v x y w h = true)) := by
  have hwrapped : OnScreen ops v x y w h = false ↔
      (wrap (x + w) < v.X ∨ x > wrap (v.X + ops.toInt (ops.mul (ops.ofInt v.W) v.XZoom)) ∨
        wrap (y + h) < v.Y ∨
        y > wrap (v.Y + ops.toInt (ops.mul (ops.ofInt v.H) v.YZoom))) := by
    unfold OnScreen
    simp only [Bool.not_eq_false', Bool.or_eq_true, decide_eq_true_eq, or_assoc]
  refine ⟨hwrapped, ?_⟩
  intro i1 i2 i3 i4
  have hfalse : OnScreen ops v x y w h = false ↔
      (x + w < v.X ∨ x > v.X + ops.toInt (ops.mul (ops.ofInt v.W) v.XZoom) ∨
        y + h < v.Y ∨ y > v.Y + ops.toInt (ops.mul (ops.ofInt v.H) v.YZoom)) := by
    rw [hwrapped, wrap_of_isInt _ i1, wrap_of_isInt _ i2, wrap_of_isInt _ i3,
      wrap_of_isInt _ i4]
  have htrue : OnScreen ops v x y w h = true ↔
      ¬ (x + w < v.X ∨ x > v.X + ops.toInt (ops.mul (ops.ofInt v.W) v.XZoom) ∨
        y + h < v.Y ∨ y > v.Y + ops.toInt (ops.mul (ops.ofInt v.H) v.YZoom)) := by
    rw [← hfalse]
    simp
  refine ⟨hfalse, htrue, ?_⟩
  rintro ⟨a, b, h1, h2, h3, h4, h5, h6, h7, h8⟩
  rw [htrue]
  unfold zoomedW at h6
  unfold zoomedH at h8
  have e1 : (v.X : ℚ) ≤ x + w := le_trans h5 h2
  have e2 : (x : ℚ) ≤ v.X + ops.toInt (ops.mul (ops.ofInt v.W) v.XZoom) := le_trans h1 h6
  have e3 : (v.Y : ℚ) ≤ y + h := le_trans h7 h4
  have e4 : (y : ℚ) ≤ v.Y + ops.toInt (ops.mul (ops.ofInt v.H) v.YZoom) := le_trans h3 h8
  have f1 : v.X ≤ x + w := by exact_mod_cast e1
  have f2 : x ≤ v.X + ops.toInt (ops.mul (ops.ofInt v.W) v.XZoom) := by exact_mod_cast e2
  have f3 : v.Y ≤ y + h := by exact_mod_cast e3
  have f4 : y ≤ v.Y + ops.toInt (ops.mul (ops.ofInt v.H) v.YZoom) := by exact_mod_cast e4
  omega

/-- The amended C15 at a 600 x 400 viewport at the origin with zoom 1 (integers
standing for float64) and the rectangle `(590, 390, 20, 20)`, which shares the
point `(595, 395)` with it. -/
theorem OnScreen_visible_witness :
    isInt (590 + 20) ∧ isInt (390 + 20) ∧ isInt (0 + 600 * 1) ∧ isInt (0 + 400 * 1) ∧
    sharesPoint (⟨id, fun a b => a * b, id⟩ : Float64Ops Int) ⟨⟨0, 0, 600, 400⟩, 1, 1⟩
      590 390 20 20 ∧
    OnScreen (⟨id, fun a b => a * b, id⟩ : Float64Ops Int) ⟨⟨0, 0, 600, 400⟩, 1, 1⟩
      590 390 20 20 = true :=
  ⟨by decide, by decide, by decide, by decide,
    ⟨595, 395, by norm_num [zoomedW, zoomedH]⟩,
    ((OnScreen_visible (⟨id, fun a b => a * b, id⟩ : Float64Ops Int) ⟨⟨0, 0, 600, 400⟩, 1, 1⟩
      590 390 20 20).2 (by decide) (by decide) (by decide) (by decide)).2.2
      ⟨595, 395, by norm_num [zoomedW, zoomedH]⟩⟩

theorem pacingLoop_stopped (reads : Nat → Bool) (fuel frames : Nat) :
    pacingLoop reads fuel frames false = ([], true) := by
  cases fuel <;> simp [pacingLoop]

theorem pacingLoop_after_false (reads : Nat → Bool) (fuel frames : Nat) (running : Bool)
    (pre post : List RunEvent)
    (h : (pacingLoop reads fuel frames running).1 = pre ++ .observe false :: post) :
    post = [] ∧ (pacingLoop reads fuel frames running).2 = true := by
  induction fuel generalizing frames running pre with
  | zero => simp [pacingLoop] at h
  | succ fuel ih =>
    unfold pacingLoop at h ⊢
    cases running with
    | false => simp at h
    | true =>
      simp only [if_true] at h ⊢
      match pre, h with
      | [], h => simp at h
      | [d], h =>
        simp only [List.singleton_append, List.cons.injEq, RunEvent.observe.injEq] at h
        obtain ⟨_, hr, hpost⟩ := h
        rw [hr, pacingLoop_stopped] at hpost ⊢
        exact ⟨hpost.symm, rfl⟩
      | d :: o :: pre', h =>
        simp only [List.cons_append, List.cons.injEq] at h
        exact ih _ _ pre' h.2.2

theorem pacingLoop_exits (reads : Nat → Bool) (fuel frames : Nat) (running : Bool) (k : Nat)
    (hk : reads k = false) (hle : frames ≤ k) (hfuel : k + 1 ≤ frames + fuel) :
    (pacingLoop reads fuel frames running).2 = true := by
  induction fuel generalizing frames running with
  | zero => omega
  | succ fuel ih =>
    unfold pacingLoop
    cases running with
    | false => simp
    | true =>
      simp only [if_true]
      by_cases hfk : frames = k
      · rw [hfk, hk, pacingLoop_stopped]
      · exact ih (frames + 1) _ (by omega) (by omega)

/-- C14: in the pacing loop of `Run`, once an iteration has read the running flag
as false nothing follows in the run: no further render task is dispatched and
the loop has exited.  The read is reached: if the flag read after the launch of
frame `k` is false, every run of at least `k + 1` iterations exits. -/
theorem Run_stops_after_false (reads : Nat → Bool) :
    (∀ fuel pre post, (Run reads fuel).1 = pre ++ .observe false :: post →
      post = [] ∧ (Run reads fuel).2 = true) ∧
    (∀ k fuel, reads k = false → k + 1 ≤ fuel → (Run reads fuel).2 = true) := by
  constructor
  · intro fuel pre post h
    exact pacingLoop_after_false reads fuel 0 true pre post h
  · intro k fuel hk hfuel
    exact pacingLoop_exits reads fuel 0 true k hk (Nat.zero_le _) (by omega)

/-- C14 at a flag that reads true after frames 0 and 1 and false after frame 2:
three frames are dispatched and the loop exits. -/
theorem Run_stops_after_false_witness :
    (Run (fun k => decide (k < 2)) 5).1 =
      [.dispatch 0, .observe true, .dispatch 1, .observe true, .dispatch 2] ++
        .observe false :: [] ∧
    (([] : List RunEvent) = [] ∧ (Run (fun k => decide (k < 2)) 5).2 = true) ∧
    (fun k => decide (k < 2)) 2 = false ∧ 2 + 1 ≤ 3 ∧
    (Run (fun k => decide (k < 2)) 3).2 = true :=
  ⟨by decide,
    (Run_stops_after_false (fun k => decide (k < 2))).1 5
      [.dispatch 0, .observe true, .dispatch 1, .observe true, .dispatch 2] [] (by decide),
    by decide, by decide,
    (Run_stops_after_false (fun k => decide (k < 2))).2 2 3 (by decide) (by decide)⟩

theorem step_gate_invariant (a : Action) (s : EngineState)
    (h : s.rendering ≤ 1 ∧ (s.rendering = 1 → s.frameDrawing = true ∧ s.pacer ≠ .atLaunch) ∧
      (s.pacer = .atLaunch → s.frameDrawing = true)) :
    (step a s).rendering ≤ 1 ∧
    ((step a s).rendering = 1 →
      (step a s).frameDrawing = true ∧ (step a s).pacer ≠ .atLaunch) ∧
    ((step a s).pacer = .atLaunch → (step a s).frameDrawing = true) := by
  obtain ⟨rn, fd, pc, rd, fr⟩ := s
  simp only at h
  obtain ⟨h1, h2, h3⟩ := h
  cases a with
  | pacer =>
    cases pc with
    | atLock =>
      cases fd with
      | true => simpa [step] using h1
      | false =>
        have hrd : rd = 0 := by
          rcases Nat.le_one_iff_eq_zero_or_eq_one.1 h1 with h | h
          · exact h
          · exact absurd (h2 h).1 (by simp)
        simp [step, hrd]
    | atLaunch =>
      have hfd : fd = true := h3 rfl
      have hrd : rd = 0 := by
        rcases Nat.le_one_iff_eq_zero_or_eq_one.1 h1 with h | h
        · exact h
        · exact absurd rfl (h2 h).2
      simp [step, hrd, hfd]
    | atCheck =>
      cases rn <;> simpa [step] using ⟨h1, fun h => (h2 h).1⟩
    | exited => simpa [step] using ⟨h1, fun h => (h2 h).1⟩
  | renderDone =>
    by_cases hrd : rd = 0
    · simpa [step, hrd] using h3
    · have hrd1 : rd = 1 := by omega
      have hpc : pc ≠ .atLaunch := (h2 hrd1).2
      simp [step, hrd1, hpc]
  | stop => simpa [step] using ⟨h1, h2, h3⟩
  | event => simpa [step] using ⟨h1, h2, h3⟩

theorem runSchedule_gate_invariant (sched : List Action) (s : EngineState)
    (h : s.rendering ≤ 1 ∧ (s.rendering = 1 → s.frameDrawing = true ∧ s.pacer ≠ .atLaunch) ∧
      (s.pacer = .atLaunch → s.frameDrawing = true)) :
    (runSchedule sched s).rendering ≤ 1 ∧
    ((runSchedule sched s).rendering = 1 →
      (runSchedule sched s).frameDrawing = true ∧ (runSchedule sched s).pacer ≠ .atLaunch) ∧
    ((runSchedule sched s).pacer = .atLaunch → (runSchedule sched s).frameDrawing = true) := by
  induction sched generalizing s with
  | nil => exact h
  | cons a rest ih => exact ih (step a s) (step_gate_invariant a s h)

theorem step_launch (a : Action) (s : EngineState)
    (h : (step a s).rendering = s.rendering + 1) :
    a = .pacer ∧ s.pacer = .atLaunch := by
  obtain ⟨rn, fd, pc, rd, fr⟩ := s
  cases a with
  | pacer =>
    cases pc with
    | atLock => cases fd <;> simp [step] at h
    | atLaunch => exact ⟨rfl, rfl⟩
    | atCheck => simp [step] at h
    | exited => simp [step] at h
  | renderDone =>
    by_cases hrd : rd = 0
    · simp [step, hrd] at h
    · simp only [step, hrd, if_false] at h
      omega
  | stop => simp [step] at h
  | event => simp [step] at h

theorem step_gate_held (a : Action) (s : EngineState) (ha : a ≠ .renderDone)
    (h : s.frameDrawing = true) : (step a s).frameDrawing = true := by
  obtain ⟨rn, fd, pc, rd, fr⟩ := s
  simp only at h
  subst h
  cases a with
  | pacer => cases pc <;> simp [step]
  | renderDone => exact absurd rfl ha
  | stop => rfl
  | event => rfl

/-- C13: under every interleaving of the steps of the pacing loop, of render
tasks returning, of `Stop()` calls and of event handling, at most one render
task is executing, and while one is executing the gate `frameDrawing` is locked.
A step launches a render task only when it is the pacing loop's step straight
after taking the gate, with the gate locked and no render task executing, and a
locked gate stays locked under every step but the return of a render task. -/
theorem at_most_one_render_task (sched : List Action) :
    (runSchedule sched engineStart).rendering ≤ 1 ∧
    ((runSchedule sched engineStart).rendering = 1 →
      (runSchedule sched engineStart).frameDrawing = true) ∧
    (∀ a, (step a (runSchedule sched engineStart)).rendering =
        (runSchedule sched engineStart).rendering + 1 →
      a = .pacer ∧ (runSchedule sched engineStart).pacer = .atLaunch ∧
        (runSchedule sched engineStart).frameDrawing = true ∧
        (runSchedule sched engineStart).rendering = 0) ∧
    (∀ a, a ≠ .renderDone → (runSchedule sched engineStart).frameDrawing = true →
      (step a (runSchedule sched engineStart)).frameDrawing = true) := by
  have hinv := runSchedule_gate_invariant sched engineStart
    ⟨by decide, by decide, by decide⟩
  obtain ⟨h1, h2, h3⟩ := hinv
  refine ⟨h1, fun h => (h2 h).1, ?_, fun a ha h => step_gate_held a _ ha h⟩
  intro a ha
  obtain ⟨hp, hpc⟩ := step_launch a _ ha
  refine ⟨hp, hpc, h3 hpc, ?_⟩
  rcases Nat.le_one_iff_eq_zero_or_eq_one.1 h1 with h | h
  · exact h
  · exact absurd hpc (h2 h).2

/-- C13 at an interleaving in which the pacing loop launches a frame, `Stop()` is
called while it renders, and the loop keeps being scheduled: one render task is
executing and the loop waits at the gate. -/
theorem at_most_one_render_task_witness :
    runSchedule [.pacer, .pacer, .event, .pacer, .pacer, .pacer, .stop, .pacer] engineStart =
      ⟨false, true, .atLock, 1, 1⟩ ∧
    (runSchedule [.pacer, .pacer, .event, .pacer, .pacer, .pacer, .stop, .pacer]
      engineStart).rendering ≤ 1 :=
  ⟨by decide,
    (at_most_one_render_task
      [.pacer, .pacer, .event, .pacer, .pacer, .pacer, .stop, .pacer]).1⟩

end display
